import Mathlib

/-!
Verification development for the capgains lot/gain ledger engine
(`capgains/models.py`).

The engine is embedded shallowly:

* `Decimal` amounts and unit counts become `ℚ` (exact arithmetic);
* timestamps (`datetime`) become `ℤ`, measured in days, so that
  `timedelta(days = n)` is addition of `n` and `(a - b).days` is `a - b`;
* the SQLAlchemy session becomes an explicit `Ledger` record holding the
  `Lot` rows, the `Gain` rows and the `OfxLog` rows (a list of the ids of
  processed transactions); query result ordering (`ORDER BY`) is modelled
  by an insertion sort on the query key;
* mutations of ORM objects returned by a query are modelled by mapping a
  conditional update over the row list (the identity map of the ORM ties
  each row to exactly one object, and every object satisfying the query
  predicate is mutated), or by an update keyed on the row id where the
  source mutates a single object reached through a foreign key;
* Python `assert` statements and exceptions become `Option`: `none` is an
  aborted (rolled-back) transaction; and
* the round trip through an IEEE-754 binary64 `float` performed by
  `Decimal(math.copysign(...))` is modelled by `floatRound`, an exact
  round-to-nearest-even at 53 significand bits on `ℚ`.
-/

namespace Capgains

/-- Result of rounding a rational to the nearest integer, ties to even;
this is the rounding performed on the scaled significand when a value is
converted to an IEEE-754 binary float. -/
def roundHalfEven (x : ℚ) : ℤ :=
  let f : ℤ := ⌊x⌋
  let r : ℚ := x - f
  if r < 1/2 then f
  else if 1/2 < r then f + 1
  else if 2 ∣ f then f else f + 1

/-- Conversion of an exact decimal value to an IEEE-754 binary64 `float`
and back to an exact value, as performed by Python's `float(Decimal)` /
`Decimal(float)`: round to the nearest dyadic rational with a 53-bit
significand (ties to even).  Overflow and subnormals are out of range for
the ledger quantities modelled here and are not modelled. -/
def floatRound (q : ℚ) : ℚ :=
  if q = 0 then 0
  else
    let a : ℚ := |q|
    let e : ℤ := Int.log 2 a
    let m : ℤ := roundHalfEven (a / 2 ^ (e - 52))
    let mag : ℚ := (m : ℚ) * 2 ^ (e - 52)
    if q < 0 then -mag else mag

/-- Python's `math.copysign(x, y)`: both arguments are converted to
binary64 floats; the result has the magnitude of `float(x)` and the sign
of `float(y)`. -/
def pyCopysign (x y : ℚ) : ℚ :=
  if y < 0 then -|floatRound x| else |floatRound x|

/-- The sign-agnostic minimum computed in `Gain.doWashSale`
(models.py:663-666): `Decimal(math.copysign(min(abs(replacementUnits),
abs(lot.units)), replacementUnits))`.  Faithful to the source, the value
passes through a binary64 float. -/
def signAgnosticMin (replacementUnits lotUnits : ℚ) : ℚ :=
  pyCopysign (min |replacementUnits| |lotUnits|) replacementUnits

/-- The sign-agnostic minimum as specified:
`effective = sign(totalReplacement) * min(|totalReplacement|, |lot.units|)`
in exact decimal arithmetic, with no conversion through binary floating
point. -/
def signAgnosticMinSpec (replacementUnits lotUnits : ℚ) : ℚ :=
  (if replacementUnits < 0 then -1 else 1) * min |replacementUnits| |lotUnits|

/-- Python's `int()` applied to a `Decimal`: truncation toward zero. -/
def pyInt (q : ℚ) : ℤ :=
  if 0 ≤ q then ⌊q⌋ else -⌊-q⌋

/-- A `Lot` row (models.py:74-171).  `account` and `security` are the
foreign keys `acctfrom_id` / `secinfo_id`; `opener`, `closer`, `starter`,
`ender` are foreign keys into the transaction table; `predecessor` is a
foreign key into the lot table itself. -/
structure Lot where
  id : ℕ
  account : ℕ
  security : ℕ
  units : ℚ
  cost : ℚ
  washcost : ℚ := 0
  dtopen : ℤ
  dtclose : Option ℤ := none
  dtstart : ℤ
  dtend : Option ℤ := none
  opener : Option ℕ := none
  closer : Option ℕ := none
  starter : Option ℕ := none
  ender : Option ℕ := none
  predecessor : Option ℕ := none
deriving DecidableEq, Repr, Inhabited

/-- A `Gain` row (models.py:514-539). -/
structure Gain where
  id : ℕ
  proceeds : ℚ
  washloss : ℚ := 0
  lotId : ℕ
  tranId : Option ℕ := none
deriving DecidableEq, Repr, Inhabited

/-- Discriminant of an `INVTRAN` subtype as dispatched by
`Lot.doInvtran` (models.py:327-344). -/
inductive TranKind where
  | buysell
  | retofcap
  | splitKind
  | other
deriving DecidableEq, Repr, Inhabited

/-- An investment transaction record (the fields of the `INVTRAN`
subtypes that the engine reads).  Fields irrelevant to a given kind are
left at their defaults. -/
structure Invtran where
  id : ℕ
  acctfrom : ℕ
  secinfo : ℕ
  dttrade : ℤ
  units : ℚ := 0
  total : ℚ := 0
  oldunits : ℚ := 0
  newunits : ℚ := 0
  numerator : ℚ := 0
  denominator : ℚ := 1
  kind : TranKind := .other
deriving DecidableEq, Repr, Inhabited

/-- The mutable state of a session: the lot and gain tables, the event
log (`OfxLog`, a list of processed transaction ids), and the
autoincrement counters for the two tables' primary keys. -/
structure Ledger where
  lots : List Lot
  gains : List Gain
  log : List ℕ
  nextLotId : ℕ
  nextGainId : ℕ
deriving DecidableEq, Repr, Inhabited

/-- Insert `x` into `l` (assumed sorted by `key`) after every element
whose key is not greater: a stable insertion. -/
def insertKey {α κ : Type} [LinearOrder κ] (key : α → κ) (x : α) : List α → List α
  | [] => [x]
  | y :: ys => if key x < key y then x :: y :: ys else y :: insertKey key x ys

/-- Stable insertion sort by `key`; models a SQL `ORDER BY key` over the
row list. -/
def sortKey {α κ : Type} [LinearOrder κ] (key : α → κ) : List α → List α
  | [] => []
  | x :: xs => insertKey key x (sortKey key xs)

/-- The filter of `Lot.asOf` (models.py:177-188): lots current at
`dtasof`, optionally restricted to an account and a security. -/
def asOfPred (dtasof : ℤ) (account security : Option ℕ) (l : Lot) : Bool :=
  decide (l.dtstart ≤ dtasof) &&
  (match l.dtend with
   | none => true
   | some e => decide (dtasof < e)) &&
  (match account with
   | none => true
   | some a => decide (l.account = a)) &&
  (match security with
   | none => true
   | some s => decide (l.security = s))

/-- `Lot.asOf` (models.py:177-188): the current lots at `dtasof`,
ordered by `(dtopen, id)`. -/
def asOf (lots : List Lot) (dtasof : ℤ) (account security : Option ℕ) : List Lot :=
  sortKey (fun l => toLex (l.dtopen, l.id)) (lots.filter (asOfPred dtasof account security))

/-- The filter of `Lot.longsAsOf` (models.py:190-195): `asOfPred`
restricted to `units > 0`. -/
def longsAsOfPred (dtasof : ℤ) (account security : Option ℕ) (l : Lot) : Bool :=
  asOfPred dtasof account security l && decide (0 < l.units)

/-- `Lot.longsAsOf` (models.py:190-195). -/
def longsAsOf (lots : List Lot) (dtasof : ℤ) (account security : Option ℕ) : List Lot :=
  (asOf lots dtasof account security).filter (fun l => decide (0 < l.units))

/-- Intermediate result of the FIFO matching walk in `Lot.trade`
(models.py:364-413): the mutated (closed) lots, the residual lot created
by a split, the gains created, the leftover incoming units, and the
advanced id counters. -/
structure TradeWalk where
  closed : List Lot
  created : List Lot
  gains : List Gain
  remaining : ℚ
  nextLotId : ℕ
  nextGainId : ℕ
deriving DecidableEq, Repr

/-- The FIFO matching loop of `Lot.trade` (models.py:370-413): walk the
open lots in `(dtopen, id)` order, closing whole lots while the incoming
units dominate, and splitting the final lot otherwise. -/
def tradeWalk (tx : Invtran) : List Lot → ℚ → ℕ → ℕ → TradeWalk
  | [], units, nl, ng => ⟨[], [], [], units, nl, ng⟩
  | lot :: rest, units, nl, ng =>
    if units = 0 then ⟨[], [], [], units, nl, ng⟩
    else if |lot.units| ≤ |units| then
      let closed : Lot :=
        { lot with dtclose := some tx.dttrade, closer := some tx.id,
                   dtend := some tx.dttrade, ender := some tx.id }
      let g : Gain :=
        { id := ng, proceeds := lot.units / tx.units * (-tx.total),
          washloss := 0, lotId := lot.id, tranId := some tx.id }
      let r := tradeWalk tx rest (units + lot.units) nl (ng + 1)
      ⟨closed :: r.closed, r.created, g :: r.gains, r.remaining, r.nextLotId, r.nextGainId⟩
    else
      let unitsOpen := units + lot.units
      let costOpen := unitsOpen * (lot.cost / lot.units)
      let closed : Lot :=
        { lot with units := -units, cost := lot.cost - costOpen,
                   dtclose := some tx.dttrade, closer := some tx.id,
                   dtend := some tx.dttrade, ender := some tx.id }
      let openLot : Lot :=
        { id := nl, account := lot.account, security := lot.security,
          units := unitsOpen, cost := costOpen,
          dtopen := lot.dtopen, opener := lot.opener,
          dtstart := lot.dtstart, starter := lot.starter }
      let g : Gain :=
        { id := ng, proceeds := (-units) / tx.units * (-tx.total),
          washloss := 0, lotId := lot.id, tranId := some tx.id }
      ⟨[closed], [openLot], [g], 0, nl + 1, ng + 1⟩

/-- Write a list of mutated rows back into the lot table, matching rows
by primary key. -/
def applyLots (lots : List Lot) (upds : List Lot) : List Lot :=
  lots.map (fun l => ((upds.find? (fun u => u.id = l.id)).getD l))

/-- `Lot.trade` (models.py:347-423): process a buy/sell.  If the event
log already records the transaction, return without change; otherwise
log it, FIFO-match the incoming units against opposite-signed open lots
of the same account and security, and open a new lot with any leftover
units. -/
def trade (st : Ledger) (tx : Invtran) : Ledger :=
  if tx.id ∈ st.log then st
  else
    let st1 : Ledger := { st with log := st.log ++ [tx.id] }
    let openLots :=
      (asOf st1.lots tx.dttrade (some tx.acctfrom) (some tx.secinfo)).filter
        (fun l => decide (l.units * tx.units < 0))
    let w := tradeWalk tx openLots tx.units st1.nextLotId st1.nextGainId
    let st2 : Ledger :=
      { st1 with lots := applyLots st1.lots w.closed ++ w.created,
                 gains := st1.gains ++ w.gains,
                 nextLotId := w.nextLotId, nextGainId := w.nextGainId }
    if w.remaining = 0 then st2
    else
      { st2 with
          lots := st2.lots ++
            [{ id := st2.nextLotId, account := tx.acctfrom, security := tx.secinfo,
               units := w.remaining, cost := -tx.total,
               dtopen := tx.dttrade, opener := some tx.id,
               dtstart := tx.dttrade, starter := some tx.id }],
          nextLotId := st2.nextLotId + 1 }

/-- Successor lots and gains built by the loop of `Lot.returnOfCapital`
(models.py:449-466), with the advanced id counters. -/
structure RocBuild where
  created : List Lot
  gains : List Gain
  nextLotId : ℕ
  nextGainId : ℕ
deriving DecidableEq, Repr

/-- The per-lot loop of `Lot.returnOfCapital` (models.py:449-466):
for each long lot, build a successor with cost reduced by
`lot.units * unitRetofcap`, clamping a negative cost to zero and
realizing the excess as a `Gain` on the successor. -/
def rocBuild (tx : Invtran) (unitRetofcap : ℚ) : List Lot → ℕ → ℕ → RocBuild
  | [], nl, ng => ⟨[], [], nl, ng⟩
  | lot :: rest, nl, ng =>
    let costAdj := lot.units * unitRetofcap
    let adjCost := lot.cost - costAdj
    let newLot : Lot :=
      { id := nl, account := lot.account, security := lot.security,
        units := lot.units, cost := adjCost, washcost := lot.washcost,
        predecessor := some lot.id,
        opener := lot.opener, dtopen := lot.dtopen,
        starter := some tx.id, dtstart := tx.dttrade }
    if adjCost < 0 then
      let g : Gain :=
        { id := ng, proceeds := -adjCost, washloss := 0,
          lotId := nl, tranId := some tx.id }
      let r := rocBuild tx unitRetofcap rest (nl + 1) (ng + 1)
      ⟨{ newLot with cost := 0 } :: r.created, g :: r.gains, r.nextLotId, r.nextGainId⟩
    else
      let r := rocBuild tx unitRetofcap rest (nl + 1) ng
      ⟨newLot :: r.created, r.gains, r.nextLotId, r.nextGainId⟩

/-- `Lot.returnOfCapital` (models.py:426-466): log the transaction
(returning unchanged when `checklog` finds it already logged), select the
open long lots of the security as of the trade date, fail when their
units sum to zero (`assert totalUnits`), and otherwise end each selected
lot and create its cost-adjusted successor. -/
def returnOfCapital (st : Ledger) (tx : Invtran) (checklog : Bool) : Option Ledger :=
  let logged := tx.id ∈ st.log
  let st1 : Ledger := if tx.id ∈ st.log then st else { st with log := st.log ++ [tx.id] }
  if checklog ∧ logged then some st1
  else
    let lots := longsAsOf st1.lots tx.dttrade none (some tx.secinfo)
    let totalUnits := (lots.map (fun l => l.units)).sum
    if totalUnits = 0 then none
    else
      let unitRetofcap := tx.total / totalUnits
      let b := rocBuild tx unitRetofcap lots st1.nextLotId st1.nextGainId
      some
        { st1 with
            lots :=
              st1.lots.map (fun l =>
                if longsAsOfPred tx.dttrade none (some tx.secinfo) l then
                  { l with ender := some tx.id, dtend := some tx.dttrade }
                else l) ++ b.created,
            gains := st1.gains ++ b.gains,
            nextLotId := b.nextLotId, nextGainId := b.nextGainId }

/-- Successor lots built by the loop of `Lot.split` (models.py:494-504),
with the accumulated successor units (`newUnits`) and the advanced lot id
counter. -/
structure SplitBuild where
  created : List Lot
  newUnits : ℚ
  nextLotId : ℕ
deriving DecidableEq, Repr

/-- The per-lot loop of `Lot.split` (models.py:494-504): for each current
lot of the security, build a successor with units scaled by `ratio` and
the predecessor's cost, accumulating the successors' units. -/
def splitBuild (tx : Invtran) (ratio : ℚ) : List Lot → ℕ → SplitBuild
  | [], nl => ⟨[], 0, nl⟩
  | lot :: rest, nl =>
    let newLot : Lot :=
      { id := nl, account := lot.account, security := lot.security,
        units := lot.units * ratio, cost := lot.cost, washcost := lot.washcost,
        predecessor := some lot.id,
        opener := lot.opener, dtopen := lot.dtopen,
        starter := some tx.id, dtstart := tx.dttrade }
    let r := splitBuild tx ratio rest (nl + 1)
    ⟨newLot :: r.created, newLot.units + r.newUnits, r.nextLotId⟩

/-- `Lot.split` (models.py:469-511): log the transaction (no-op when
already logged), fail when `newunits/oldunits` disagrees with
`numerator/denominator`, end every current lot of the security and create
its scaled successor, and fail when the successors' units differ from
`newunits` by `1e-8` or more. -/
def split (st : Ledger) (tx : Invtran) : Option Ledger :=
  if tx.id ∈ st.log then some st
  else
    let st1 : Ledger := { st with log := st.log ++ [tx.id] }
    let ratio := tx.newunits / tx.oldunits
    if ratio ≠ tx.numerator / tx.denominator then none
    else
      let lots := asOf st1.lots tx.dttrade none (some tx.secinfo)
      let b := splitBuild tx ratio lots st1.nextLotId
      if |b.newUnits - tx.newunits| < 1 / 100000000 then
        some
          { st1 with
              lots :=
                st1.lots.map (fun l =>
                  if asOfPred tx.dttrade none (some tx.secinfo) l then
                    { l with ender := some tx.id, dtend := some tx.dttrade }
                  else l) ++ b.created,
              nextLotId := b.nextLotId }
      else none

/-- The successor-creating loop of `IBKR.doTransfer` (models.py:1000-1012):
given the held lots, the in/out transaction pair, the new security and the
ratio `transferIn.units / units`, end each held lot and create a successor
in the new security with units scaled by the ratio. -/
def transferBuild (lots : List Lot) (ratio : ℚ) (newSecurity : ℕ)
    (transferOutId transferInId : ℕ) (dttrade : ℤ) (nextLotId : ℕ) :
    List Lot × List Lot :=
  match lots, nextLotId with
  | [], _ => ([], [])
  | lot :: rest, nl =>
    let ended : Lot := { lot with ender := some transferOutId, dtend := some dttrade }
    let newLot : Lot :=
      { id := nl, account := lot.account, security := newSecurity,
        units := lot.units * ratio, cost := lot.cost,
        washcost := lot.washcost,
        dtopen := lot.dtopen, opener := lot.opener,
        dtstart := dttrade, starter := some transferInId,
        predecessor := some lot.id }
    let r := transferBuild rest ratio newSecurity transferOutId transferInId dttrade (nl + 1)
    (ended :: r.1, newLot :: r.2)

/-- `Lot.doInvtran` (models.py:327-344) restricted to the canonical
handlers: dispatch on the transaction kind to `trade`,
`returnOfCapital` or `split`, and silently drop other kinds.  (The
broker-quirks table in the reference data has overrides only for
`TRANSFER` and `INCOME`, so the three kinds modelled here always reach
the canonical handlers.) -/
def doInvtran (st : Ledger) (tx : Invtran) : Option Ledger :=
  match tx.kind with
  | .buysell => some (trade st tx)
  | .retofcap => returnOfCapital st tx true
  | .splitKind => split st tx
  | .other => some st

/-- `Lot.doInvtrans` (models.py:316-325) over an explicit, already
date-ordered transaction stream: process each transaction in turn,
aborting on the first fatal error. -/
def doInvtrans (st : Ledger) (txs : List Invtran) : Option Ledger :=
  match txs with
  | [] => some st
  | tx :: rest =>
    match doInvtran st tx with
    | none => none
    | some st1 => doInvtrans st1 rest

/-- One row of the lots CSV file (models.py:197-199).  The
broker/account and security identity columns are collapsed to the keys
they look up (`INVACCTFROM.lookupByPk` / `SECINFO.lookupByPk` on load);
`dtopen` survives the `str`/`strptime` round trip exactly at the
day granularity modelled here.  The `washcost` column is an integer
because `Lot.dumpCsv` writes `int(lot.washcost)` (models.py:307). -/
structure LotCsvRow where
  account : ℕ
  security : ℕ
  dtopen : ℤ
  units : ℚ
  cost : ℚ
  washcost : ℤ
deriving DecidableEq, Repr

/-- The per-lot row written by `Lot.dumpCsv` in non-consolidated mode
(models.py:295-309). -/
def dumpCsvRow (l : Lot) : LotCsvRow :=
  { account := l.account, security := l.security, dtopen := l.dtopen,
    units := l.units, cost := l.cost, washcost := pyInt l.washcost }

/-- The lot built from one CSV row by `Lot.loadCsv` (models.py:209-254):
both `dtstart` and `dtopen` are set to the parsed `dtopen` column, and
`units`/`cost`/`washcost` are re-parsed as exact decimals. -/
def loadCsvRow (r : LotCsvRow) (id : ℕ) : Lot :=
  { id := id, account := r.account, security := r.security,
    dtstart := r.dtopen, dtopen := r.dtopen,
    units := r.units, cost := r.cost, washcost := (r.washcost : ℚ) }

/-- Write one mutated row back into the lot table, matching by primary
key (the ORM identity map ties the mutated object to its row). -/
def setLot (lots : List Lot) (l1 : Lot) : List Lot :=
  lots.map (fun l => if l.id = l1.id then l1 else l)

/-- Write one mutated row back into the gain table, matching by primary
key. -/
def setGain (gains : List Gain) (g1 : Gain) : List Gain :=
  gains.map (fun g => if g.id = g1.id then g1 else g)

/-- Look up the transaction a gain points to (`gain.transaction`). -/
def getTx (txs : List Invtran) (i : Option ℕ) : Invtran :=
  match i with
  | none => default
  | some j => (txs.find? (fun t => t.id = j)).getD default

/-- The replacement-lot filter of `Gain.doWashSale` (models.py:638-646):
same account and security, same unit sign as the loss lot, not already
used as replacement shares (`washcost == 0`), opened within 30 days
either side of the loss lot's close, and not the loss lot itself.
The loss lot's `units`, `dtclose` and `id` are the scalars captured when
the query is constructed. -/
def washReplPred (acct sec lossId : ℕ) (lossUnits : ℚ) (dc : ℤ) (l : Lot) : Bool :=
  decide (l.id ≠ lossId) && decide (l.account = acct) && decide (l.security = sec) &&
  decide (0 < l.units * lossUnits) && decide (l.washcost = 0) &&
  decide (dc - 30 ≤ l.dtopen) && decide (l.dtopen ≤ dc + 30)

/-- The replacement-lot query of `Gain.doWashSale` (models.py:638-646),
ordered by `dtopen`.  The query is re-executed each time it is iterated,
so it is a function of the current lot table. -/
def washReplacements (lots : List Lot) (acct sec lossId : ℕ) (lossUnits : ℚ) (dc : ℤ) :
    List Lot :=
  sortKey (fun l => l.dtopen) (lots.filter (washReplPred acct sec lossId lossUnits dc))

/-- The gain-splitting loop shared by the two lot splits in
`Gain.doWashSale` (models.py:728-751 for the loss lot, models.py:811-822
for a split replacement lot): every gain on the split lot has its
proceeds recomputed from its transaction at the lot's reduced unit count
`wu`, and a twin gain with proportional proceeds is created on the
newly split-off lot `unwashedLotId`.  On the loss-lot side
(`selfCheck = some (id, washedProceeds)`) the recomputed proceeds of the
wash-sale gain itself are asserted to agree with `washedProceeds` within
`1e-8`.  Returns the rewritten gain table, the created gains, and the
advanced gain id counter. -/
def splitGains (txs : List Invtran) (lotId : ℕ) (wu unwashedU : ℚ)
    (unwashedLotId : ℕ) (selfCheck : Option (ℕ × ℚ)) :
    List Gain → ℕ → Option (List Gain × List Gain × ℕ)
  | [], ng => some ([], [], ng)
  | gain :: rest, ng =>
    if gain.lotId = lotId then
      let tx := getTx txs gain.tranId
      let pr := wu / (-tx.units) * tx.total
      let ok : Bool :=
        match selfCheck with
        | some (sid, wp) =>
          if gain.id = sid then decide (|pr - wp| < 1 / 100000000) else true
        | none => true
      if ok then
        let ug : Gain :=
          { id := ng, proceeds := unwashedU / (-tx.units) * tx.total,
            washloss := 0, lotId := unwashedLotId, tranId := gain.tranId }
        match splitGains txs lotId wu unwashedU unwashedLotId selfCheck rest (ng + 1) with
        | some (ms, ns, ng1) => some ({ gain with proceeds := pr } :: ms, ug :: ns, ng1)
        | none => none
      else none
    else
      match splitGains txs lotId wu unwashedU unwashedLotId selfCheck rest ng with
      | some (ms, ns, ng1) => some (gain :: ms, ns, ng1)
      | none => none

/-- The lot/gain tables as threaded through the replacement-rolling loop
of `Gain.doWashSale`, with the id counters. -/
structure RollAcc where
  lots : List Lot
  gains : List Gain
  nextLotId : ℕ
  nextGainId : ℕ
deriving DecidableEq, Repr

/-- The replacement-rolling loop of `Gain.doWashSale`
(models.py:753-828), including the two final assertions
(`assert replacementUnits == 0`, `assert disallowedLoss == 0`): roll the
disallowed loss into the replacement lots in order, splitting the last
replacement lot when the loss units run out partway through, and fail
unless the running unit counter ends at zero and the `washcost`
assignments sum to the disallowed loss. -/
def rollLoop (txs : List Invtran) (unitLoss : ℚ) :
    List Lot → ℚ → ℚ → RollAcc → Option RollAcc
  | [], counter, disLoss, acc =>
    if counter = 0 then (if disLoss = 0 then some acc else none) else none
  | lot :: rest, counter, disLoss, acc =>
    if counter = 0 then (if disLoss = 0 then some acc else none)
    else if |lot.units| ≤ |counter| then
      let washedUnits := lot.units
      let wc := washedUnits * (-unitLoss)
      let acc1 : RollAcc := { acc with lots := setLot acc.lots { lot with washcost := wc } }
      rollLoop txs unitLoss rest (counter - washedUnits) (disLoss + wc) acc1
    else
      let washedUnits := counter
      let washedCost := washedUnits * (lot.cost / lot.units)
      let unwashedUnits := lot.units - washedUnits
      let unwashedCost := unwashedUnits * (lot.cost / lot.units)
      let wc := washedUnits * (-unitLoss)
      let lotW : Lot := { lot with units := washedUnits, cost := washedCost, washcost := wc }
      let unwashedLot : Lot :=
        { id := acc.nextLotId, account := lot.account, security := lot.security,
          units := unwashedUnits, cost := unwashedCost,
          dtstart := lot.dtstart, starter := lot.starter,
          dtend := lot.dtend, ender := lot.ender,
          dtopen := lot.dtopen, opener := lot.opener,
          dtclose := lot.dtclose, closer := lot.closer }
      match splitGains txs lot.id washedUnits unwashedUnits acc.nextLotId none
          acc.gains acc.nextGainId with
      | none => none
      | some (ms, ns, ng1) =>
        let acc1 : RollAcc :=
          { lots := setLot acc.lots lotW ++ [unwashedLot], gains := ms ++ ns,
            nextLotId := acc.nextLotId + 1, nextGainId := ng1 }
        rollLoop txs unitLoss rest (counter - washedUnits) (disLoss + wc) acc1

/-- `Gain.doWashSale` (models.py:597-828).  Guards: an open lot, an
already-disallowed loss, a non-loss, or a gain whose transaction is not
the lot's closer, are skipped; a missing lot row would be an attribute
error in the source and aborts.  Then: find the replacement lots, skip
when their units sum to zero, reconcile magnitudes through
`signAgnosticMin` (the binary-float round trip of the source), partition
the loss lot and its gains into washed and unwashed portions, and roll
the disallowed loss into the replacement lots (re-querying them, as
iterating the SQLAlchemy query a second time re-executes it against the
flushed session). -/
def doWashSale (txs : List Invtran) (st : Ledger) (g : Gain) : Option Ledger :=
  match st.lots.find? (fun l => l.id = g.lotId) with
  | none => none
  | some lot =>
    match lot.dtclose with
    | none => some st
    | some dc =>
      if g.washloss ≠ 0 then some st
      else if 0 ≤ g.proceeds - lot.cost then some st
      else if lot.closer ≠ g.tranId then some st
      else
        let repl := washReplacements st.lots lot.account lot.security lot.id lot.units dc
        let replacementUnits := (repl.map (fun l => l.units)).sum
        if replacementUnits = 0 then some st
        else
          let effective := signAgnosticMin replacementUnits lot.units
          let washedUnits := effective
          let unwashedUnits := lot.units - washedUnits
          let unitCost := lot.cost / lot.units
          let washedCost := washedUnits * unitCost
          let unwashedCost := unwashedUnits * unitCost
          let unitProceeds := g.proceeds / lot.units
          let washedProceeds := washedUnits * unitProceeds
          let unitLoss := (g.proceeds - lot.cost) / lot.units
          let disallowedLoss := washedUnits * unitLoss
          let lots1 := setLot st.lots { lot with units := washedUnits, cost := washedCost }
          if 1 / 100000000 ≤ |washedProceeds - washedCost - disallowedLoss| then none
          else
            let gains1 := setGain st.gains
              { g with proceeds := washedProceeds, washloss := disallowedLoss }
            let afterPartition : Option (List Lot × List Gain × ℕ × ℕ) :=
              if unwashedUnits = 0 then some (lots1, gains1, st.nextLotId, st.nextGainId)
              else
                let unwashedLot : Lot :=
                  { id := st.nextLotId, account := lot.account, security := lot.security,
                    units := unwashedUnits, cost := unwashedCost,
                    dtstart := lot.dtstart, starter := lot.starter,
                    dtend := lot.dtend, ender := lot.ender,
                    dtopen := lot.dtopen, opener := lot.opener,
                    dtclose := lot.dtclose, closer := lot.closer }
                match splitGains txs lot.id washedUnits unwashedUnits st.nextLotId
                    (some (g.id, washedProceeds)) gains1 st.nextGainId with
                | none => none
                | some (ms, ns, ng1) =>
                  some (lots1 ++ [unwashedLot], ms ++ ns, st.nextLotId + 1, ng1)
            match afterPartition with
            | none => none
            | some (lots2, gains2, nl2, ng2) =>
              let repl2 := washReplacements lots2 lot.account lot.security lot.id lot.units dc
              (rollLoop txs unitLoss repl2 effective disallowedLoss
                  ⟨lots2, gains2, nl2, ng2⟩).map
                (fun acc =>
                  { st with
                      lots := acc.lots, gains := acc.gains,
                      nextLotId := acc.nextLotId, nextGainId := acc.nextGainId })

/-- The selection query of `Gain.doWashSales` (models.py:580-595): gains
with `washloss == 0` joined to their lot, where the lot has been closed
(`dtclose` non-null) and `dtstart < lot.dtopen ≤ dtend`, ordered by
`lot.dtopen`. -/
def doWashSalesSelect (st : Ledger) (dtstart dtend : ℤ) : List Gain :=
  sortKey
    (fun g => ((st.lots.find? (fun l => l.id = g.lotId)).getD default).dtopen)
    (st.gains.filter (fun g =>
      decide (g.washloss = 0) &&
      (match st.lots.find? (fun l => l.id = g.lotId) with
       | none => false
       | some l =>
         decide (l.dtclose ≠ none) && decide (dtstart < l.dtopen) &&
         decide (l.dtopen ≤ dtend))))

/-- The lot a gain points to (`gain.lot`); the foreign key is
`NOT NULL`, so `default` is never reached on a well-formed ledger. -/
def gainLot (st : Ledger) (g : Gain) : Lot :=
  (st.lots.find? (fun l => l.id = g.lotId)).getD default

/-- `Gain.value` (models.py:549-551): `proceeds - lot.cost`. -/
def gainValue (st : Ledger) (g : Gain) : ℚ :=
  g.proceeds - (gainLot st g).cost

/-- `Gain.isLongTerm` (models.py:573-578): short sales are always
short-term; otherwise long-term iff the holding period
`(dtclose - dtopen).days` exceeds 365, with `dtclose` the trade date of
the gain's transaction. -/
def gainIsLongTerm (txs : List Invtran) (st : Ledger) (g : Gain) : Bool :=
  if (gainLot st g).units < 0 then false
  else decide (365 < (getTx txs g.tranId).dttrade - (gainLot st g).dtopen)

/-- The lots selected by `Lot.returnOfCapital`: the open long lots of
the transaction's security as of its trade date (models.py:438). -/
def rocSelection (st : Ledger) (tx : Invtran) : List Lot :=
  longsAsOf st.lots tx.dttrade none (some tx.secinfo)

/-- The unit total asserted nonzero by `Lot.returnOfCapital`
(models.py:439-441). -/
def rocTotalUnits (st : Ledger) (tx : Invtran) : ℚ :=
  ((rocSelection st tx).map (fun l => l.units)).sum

/-- The adjusted successor cost of `Lot.returnOfCapital`
(models.py:450-451): `lot.cost - lot.units * (total / totalUnits)`. -/
def rocAdjCost (st : Ledger) (tx : Invtran) (l : Lot) : ℚ :=
  l.cost - l.units * (tx.total / rocTotalUnits st tx)

/-- The lots subject to `Lot.split`: every current lot of the security
as of the split date (models.py:488-489). -/
def splitSelection (st : Ledger) (tx : Invtran) : List Lot :=
  asOf st.lots tx.dttrade none (some tx.secinfo)

/-- The split ratio `newunits / oldunits` (models.py:481). -/
def splitRatio (tx : Invtran) : ℚ :=
  tx.newunits / tx.oldunits

/-- The signed unit total of the replacement lots found for a wash-sale
loss lot (models.py:650). -/
def washReplUnits (st : Ledger) (lot : Lot) (dc : ℤ) : ℚ :=
  ((washReplacements st.lots lot.account lot.security lot.id lot.units dc).map
    (fun l => l.units)).sum

/-- Scenario S1, opening trade: buy 300 units at $10.00 plus $9.99
commission on 2005-10-03 (day 0), total −3009.99. -/
def s1Buy : Invtran :=
  { id := 1, acctfrom := 0, secinfo := 0, dttrade := 0,
    units := 300, total := -300999/100, kind := .buysell }

/-- Scenario S1, closing trade: sell 200 units at $12.00 less $9.99
commission on 2005-12-01 (day 59), total 2390.01. -/
def s1Sell : Invtran :=
  { id := 2, acctfrom := 0, secinfo := 0, dttrade := 59,
    units := -200, total := 239001/100, kind := .buysell }

/-- The empty ledger. -/
def emptyLedger : Ledger := ⟨[], [], [], 1, 1⟩

/-- The ledger after processing the two trades of scenario S1. -/
def s1Final : Ledger := trade (trade emptyLedger s1Buy) s1Sell

/-- A wash-sale loss lot with fractional units (a fifth of a share,
bought for 2 and sold via transaction 2 on day 40 for proceeds 1). -/
def ce2Lot : Lot :=
  { id := 1, account := 0, security := 0, units := 1/5, cost := 2,
    dtopen := 0, dtclose := some 40, dtstart := 0, dtend := some 40,
    opener := some 1, closer := some 2, starter := some 1, ender := some 2 }

/-- A replacement lot of a tenth of a share bought on day 35, within 30
days of the loss lot's close. -/
def ce2Repl : Lot :=
  { id := 2, account := 0, security := 0, units := 1/10, cost := 1,
    dtopen := 35, dtstart := 35, opener := some 3, starter := some 3 }

/-- The realized loss on `ce2Lot`: proceeds 1 against cost 2. -/
def ce2Gain : Gain := { id := 1, proceeds := 1, lotId := 1, tranId := some 2 }

/-- The closing sale that realized `ce2Gain`. -/
def ce2Sell : Invtran :=
  { id := 2, acctfrom := 0, secinfo := 0, dttrade := 40, units := -1/5, total := 1,
    kind := .buysell }

/-- The purchase that opened `ce2Repl`. -/
def ce2Buy : Invtran :=
  { id := 3, acctfrom := 0, secinfo := 0, dttrade := 35, units := 1/10, total := -1,
    kind := .buysell }

/-- Ledger holding the fractional-unit loss lot, its replacement lot and
the loss gain, all transactions already ingested. -/
def ce2St : Ledger := ⟨[ce2Lot, ce2Repl], [ce2Gain], [1, 2, 3], 3, 2⟩

/-- A wash-sale loss lot with integer units: two shares bought for 20 and
sold via transaction 2 on day 10 for proceeds 16. -/
def w2Lot : Lot :=
  { id := 1, account := 0, security := 0, units := 2, cost := 20,
    dtopen := 0, dtclose := some 10, dtstart := 0, dtend := some 10,
    opener := some 1, closer := some 2, starter := some 1, ender := some 2 }

/-- A replacement lot of one share bought on day 20. -/
def w2Repl : Lot :=
  { id := 2, account := 0, security := 0, units := 1, cost := 5,
    dtopen := 20, dtstart := 20, opener := some 3, starter := some 3 }

/-- The realized loss on `w2Lot`: proceeds 16 against cost 20. -/
def w2Gain : Gain := { id := 1, proceeds := 16, lotId := 1, tranId := some 2 }

/-- The closing sale that realized `w2Gain`. -/
def w2Sell : Invtran :=
  { id := 2, acctfrom := 0, secinfo := 0, dttrade := 10, units := -2, total := 16,
    kind := .buysell }

/-- Ledger holding the integer-unit loss lot, its replacement lot and the
loss gain. -/
def w2St : Ledger := ⟨[w2Lot, w2Repl], [w2Gain], [1, 2, 3], 3, 2⟩

/-- A lot carrying the fractional wash-sale cost adjustment 205.8275 of
scenario S2. -/
def s2WashLot : Lot :=
  { id := 1, account := 0, security := 0, units := 100, cost := 1000,
    washcost := 2058275/10000, dtopen := 0, dtstart := 0 }

/-- A return-of-capital successor lot, whose `dtstart` (day 3) is later
than its `dtopen` (day 0). -/
def rocSuccLot : Lot :=
  { id := 2, account := 0, security := 0, units := 100, cost := 900,
    dtopen := 0, dtstart := 3, predecessor := some 1 }

/-- A lot closed on day 40 — inside the window `[0, 50]` — but opened on
day −5, before the window. -/
def c1LotA : Lot :=
  { id := 1, account := 0, security := 0, units := 1, cost := 1,
    dtopen := -5, dtstart := -5, dtclose := some 40, dtend := some 40 }

/-- A lot closed on day 60 — outside the window `[0, 50]` — but opened on
day 10, inside the window. -/
def c1LotB : Lot :=
  { id := 2, account := 0, security := 0, units := 1, cost := 1,
    dtopen := 10, dtstart := 10, dtclose := some 60, dtend := some 60 }

/-- An unprocessed gain on `c1LotA`. -/
def c1GainA : Gain := { id := 1, proceeds := 1, lotId := 1 }

/-- An unprocessed gain on `c1LotB`. -/
def c1GainB : Gain := { id := 2, proceeds := 1, lotId := 2 }

/-- Ledger holding both gains of the wash-sale window scenario. -/
def c1St : Ledger := ⟨[c1LotA, c1LotB], [c1GainA, c1GainB], [], 3, 3⟩

/-- A single open long lot used to exercise `returnOfCapital`: one unit
bought for 10 on day 0. -/
def rocLot : Lot :=
  { id := 1, account := 0, security := 0, units := 1, cost := 10,
    dtopen := 0, dtstart := 0, opener := some 1, starter := some 1 }

/-- A return of capital of 15 against `rocLot` on day 3 — more than the
whole cost basis, so the successor's cost is clamped at zero and the
excess 5 becomes a gain. -/
def rocTx : Invtran :=
  { id := 5, acctfrom := 0, secinfo := 0, dttrade := 3, total := 15, kind := .retofcap }

/-- Ledger holding only `rocLot`. -/
def rocSt : Ledger := ⟨[rocLot], [], [], 2, 1⟩

/-- A 2-for-1 split of the security of `rocLot` on day 4. -/
def splitTx : Invtran :=
  { id := 6, acctfrom := 0, secinfo := 0, dttrade := 4, oldunits := 1, newunits := 2,
    numerator := 2, denominator := 1, kind := .splitKind }

/-- A trade with zero units (id 7, not yet logged). -/
def zeroTx : Invtran :=
  { id := 7, acctfrom := 0, secinfo := 0, dttrade := 1, units := 0, total := 0,
    kind := .buysell }

/-- The ledger produced by `returnOfCapital rocSt rocTx true`: the old
lot ended on day 3, a zero-cost successor, and a gain of 5 on the
successor. -/
def rocResult : Ledger :=
  { lots :=
      [{ id := 1, account := 0, security := 0, units := 1, cost := 10,
         dtopen := 0, dtstart := 0, dtend := some 3,
         opener := some 1, starter := some 1, ender := some 5 },
       { id := 2, account := 0, security := 0, units := 1, cost := 0,
         dtopen := 0, dtstart := 3, opener := some 1, starter := some 5,
         predecessor := some 1 }],
    gains := [{ id := 1, proceeds := 5, lotId := 2, tranId := some 5 }],
    log := [5], nextLotId := 3, nextGainId := 2 }

/-- The successor lot created by `returnOfCapital rocSt rocTx true`
(the second lot of `rocResult`). -/
def rocSuccessor : Lot :=
  { id := 2, account := 0, security := 0, units := 1, cost := 0,
    dtopen := 0, dtstart := 3, opener := some 1, starter := some 5,
    predecessor := some 1 }

/-- The ledger produced by `split rocSt splitTx`: the old lot ended on
day 4 and a two-unit successor carrying the predecessor's cost. -/
def splitResult : Ledger :=
  { lots :=
      [{ id := 1, account := 0, security := 0, units := 1, cost := 10,
         dtopen := 0, dtstart := 0, dtend := some 4,
         opener := some 1, starter := some 1, ender := some 6 },
       { id := 2, account := 0, security := 0, units := 2, cost := 10,
         dtopen := 0, dtstart := 4, opener := some 1, starter := some 6,
         predecessor := some 1 }],
    gains := [], log := [6], nextLotId := 3, nextGainId := 1 }

/-- The closed lot expected from scenario S1: 200 units at cost 2006.66,
closed by the sale on day 59. -/
def s1ClosedLot : Lot :=
  { id := 1, account := 0, security := 0, units := 200, cost := 200666/100,
    dtopen := 0, dtclose := some 59, dtstart := 0, dtend := some 59,
    opener := some 1, closer := some 2, starter := some 1, ender := some 2 }

/-- The residual open lot expected from scenario S1: 100 units at cost
1003.33. -/
def s1OpenLot : Lot :=
  { id := 2, account := 0, security := 0, units := 100, cost := 100333/100,
    dtopen := 0, dtstart := 0, opener := some 1, starter := some 1 }

/-- The gain expected from scenario S1: proceeds 2390.01 on the closed
lot. -/
def s1Gain : Gain := { id := 1, proceeds := 239001/100, lotId := 1, tranId := some 2 }

end Capgains

namespace Capgains

theorem insertKey_perm {α κ : Type} [LinearOrder κ] (key : α → κ) (x : α) :
    ∀ l : List α, (insertKey key x l).Perm (x :: l) := by
  intro l
  induction l with
  | nil => simp [insertKey]
  | cons y ys ih =>
    by_cases h : key x < key y
    · simp [insertKey, h]
    · simp only [insertKey, if_neg h]
      exact ((ih.cons y).trans (List.Perm.swap x y ys))

theorem sortKey_perm {α κ : Type} [LinearOrder κ] (key : α → κ) :
    ∀ l : List α, (sortKey key l).Perm l := by
  intro l
  induction l with
  | nil => simp [sortKey]
  | cons x xs ih =>
    exact (insertKey_perm key x (sortKey key xs)).trans (ih.cons x)

theorem mem_sortKey {α κ : Type} [LinearOrder κ] (key : α → κ) (l : List α) (a : α) :
    a ∈ sortKey key l ↔ a ∈ l :=
  (sortKey_perm key l).mem_iff

theorem insertKey_pairwise {α κ : Type} [LinearOrder κ] (key : α → κ) (x : α)
    (l : List α) (h : l.Pairwise (fun a b => key a ≤ key b)) :
    (insertKey key x l).Pairwise (fun a b => key a ≤ key b) := by
  induction l with
  | nil => simp [insertKey]
  | cons y ys ih =>
    rcases List.pairwise_cons.mp h with ⟨hy, hys⟩
    by_cases hlt : key x < key y
    · rw [insertKey, if_pos hlt]
      refine List.pairwise_cons.mpr ⟨?_, h⟩
      intro b hb
      rcases List.mem_cons.mp hb with rfl | hb
      · exact le_of_lt hlt
      · exact le_trans (le_of_lt hlt) (hy _ hb)
    · rw [insertKey, if_neg hlt]
      refine List.pairwise_cons.mpr ⟨?_, ih hys⟩
      intro b hb
      rcases List.mem_cons.mp (((insertKey_perm key x ys).mem_iff).mp hb) with rfl | hb
      · exact le_of_not_lt hlt
      · exact hy _ hb

theorem sortKey_pairwise {α κ : Type} [LinearOrder κ] (key : α → κ) :
    ∀ l : List α, (sortKey key l).Pairwise (fun a b => key a ≤ key b) := by
  intro l
  induction l with
  | nil => simp [sortKey]
  | cons x xs ih => exact insertKey_pairwise key x _ ih

/-- C3: on an empty ledger, buying 300 units for a total of −3009.99 on
2005-10-03 (day 0) and then selling 200 units for a total of 2390.01 on
2005-12-01 (day 59) yields exactly one closed lot of 200 units with cost
2006.66 carrying a gain with proceeds 2390.01 and value 383.35 that is
classified short-term, and one open lot of 100 units with cost
1003.33. -/
theorem trade_partialClose_fifo_s1 :
    s1Final.lots = [s1ClosedLot, s1OpenLot] ∧
    s1Final.gains = [s1Gain] ∧
    gainValue s1Final s1Gain = 38335/100 ∧
    gainIsLongTerm [s1Buy, s1Sell] s1Final s1Gain = false := by
  norm_num [s1Final, s1Buy, s1Sell, emptyLedger, trade, tradeWalk, asOf, asOfPred,
    sortKey, insertKey, applyLots, s1ClosedLot, s1OpenLot, s1Gain, gainValue, gainLot,
    gainIsLongTerm, getTx, List.filter, List.find?]

/-- C4: the effective wash-sale unit count computed by the source
(`signAgnosticMin`, which round-trips through a binary64 float via
`math.copysign`) differs from the exact decimal
`sign(totalReplacement) * min(|totalReplacement|, |lot.units|)`
(`signAgnosticMinSpec`) already at `totalReplacement = 0.1`,
`lot.units = 0.2`: the float round trip returns the dyadic
3602879701896397/2^55, not 1/10. -/
theorem roundHalfEven_up (x : ℚ) (f : ℤ) (h1 : (f:ℚ) ≤ x) (h2 : (1:ℚ)/2 < x - f)
    (h3 : x - (f:ℚ) < 1) : roundHalfEven x = f + 1 := by
  have hf : ⌊x⌋ = f := by
    rw [Int.floor_eq_iff]
    exact ⟨h1, by linarith⟩
  unfold roundHalfEven
  rw [hf, if_neg (by linarith), if_pos h2]

theorem roundHalfEven_int (n : ℤ) : roundHalfEven (n : ℚ) = n := by
  simp only [roundHalfEven, Int.floor_intCast, sub_self]
  norm_num

theorem floatRound_tenth : floatRound (1/10 : ℚ) = 3602879701896397/36028797018963968 := by
  have habs : |(1:ℚ)/10| = 1/10 := by norm_num
  have hlog : Int.log 2 ((1:ℚ)/10) = -4 := by
    rw [Int.log_of_right_le_one 2 (by norm_num)]
    norm_num [Nat.clog]
  have hx : ((1:ℚ)/10) / 2 ^ ((-4:ℤ) - 52) = 36028797018963968/5 := by
    norm_num
  have hr : roundHalfEven ((36028797018963968:ℚ)/5) = 7205759403792794 := by
    have := roundHalfEven_up ((36028797018963968:ℚ)/5) 7205759403792793
      (by norm_num) (by norm_num) (by norm_num)
    simpa using this
  rw [floatRound, if_neg (by norm_num : ¬((1:ℚ)/10 = 0))]
  simp only [habs, hlog, hx, hr]
  norm_num

theorem floatRound_one : floatRound (1 : ℚ) = 1 := by
  have hlog : Int.log 2 ((1:ℚ)) = 0 := Int.log_one_right 2
  have hx : ((1:ℚ)) / 2 ^ ((0:ℤ) - 52) = ((4503599627370496 : ℤ) : ℚ) := by
    norm_num
  rw [floatRound, if_neg (by norm_num : ¬((1:ℚ) = 0))]
  simp only [abs_one, hlog, hx, roundHalfEven_int]
  norm_num

theorem signAgnosticMin_tenth_fifth :
    signAgnosticMin ((1:ℚ)/10) ((1:ℚ)/5) = 3602879701896397/36028797018963968 := by
  have ha : |(1:ℚ)/10| = 1/10 := abs_of_pos (by norm_num)
  have hb : |(1:ℚ)/5| = 1/5 := abs_of_pos (by norm_num)
  have hmin : min |(1:ℚ)/10| |(1:ℚ)/5| = 1/10 := by
    rw [ha, hb]
    exact min_eq_left (by norm_num)
  unfold signAgnosticMin pyCopysign
  rw [if_neg (by norm_num : ¬((1:ℚ)/10 < 0)), hmin, floatRound_tenth]
  exact abs_of_pos (by norm_num)

theorem signAgnosticMin_float_divergence :
    signAgnosticMin (1/10) (1/5) = 3602879701896397/36028797018963968 ∧
    signAgnosticMinSpec (1/10) (1/5) = 1/10 ∧
    signAgnosticMin (1/10) (1/5) ≠ signAgnosticMinSpec (1/10) (1/5) := by
  have ha : |(1:ℚ)/10| = 1/10 := abs_of_pos (by norm_num)
  have hb : |(1:ℚ)/5| = 1/5 := abs_of_pos (by norm_num)
  have hmin : min |(1:ℚ)/10| |(1:ℚ)/5| = 1/10 := by
    rw [ha, hb]
    exact min_eq_left (by norm_num)
  have hspec : signAgnosticMinSpec ((1:ℚ)/10) ((1:ℚ)/5) = 1/10 := by
    unfold signAgnosticMinSpec
    rw [if_neg (by norm_num : ¬((1:ℚ)/10 < 0)), hmin]
    norm_num
  refine ⟨signAgnosticMin_tenth_fifth, hspec, ?_⟩
  rw [signAgnosticMin_tenth_fifth, hspec]
  norm_num

/-- C5: dumping a lot to CSV and loading it back does not preserve
`washcost` (written as `int(lot.washcost)`, truncating 205.8275 to 205)
nor `dtstart` (not dumped; reset to `dtopen` on load), although `units`
and `cost` do survive. -/
theorem lotCsv_roundTrip_bug :
    (loadCsvRow (dumpCsvRow s2WashLot) 9).washcost = 205 ∧
    s2WashLot.washcost = 2058275/10000 ∧
    (loadCsvRow (dumpCsvRow s2WashLot) 9).washcost ≠ s2WashLot.washcost ∧
    (loadCsvRow (dumpCsvRow s2WashLot) 9).units = s2WashLot.units ∧
    (loadCsvRow (dumpCsvRow s2WashLot) 9).cost = s2WashLot.cost ∧
    rocSuccLot.dtstart = 3 ∧
    (loadCsvRow (dumpCsvRow rocSuccLot) 10).dtstart ≠ rocSuccLot.dtstart := by
  have hfl : ⌊(2058275:ℚ)/10000⌋ = 205 := by
    rw [Int.floor_eq_iff]
    norm_num
  norm_num [loadCsvRow, dumpCsvRow, pyInt, s2WashLot, rocSuccLot, hfl]

/-- C1 (counterexample): with the window `(0, 50]`, the wash-sale pass
skips the unprocessed gain on the lot closed on day 40 — inside the
window — because that lot was opened on day −5, while it selects the
gain on the lot closed on day 60 — outside the window — because that lot
was opened on day 10.  The pass therefore does not process exactly the
gains on lots closed within the window. -/
theorem doWashSalesSelect_window_counterexample :
    doWashSalesSelect c1St 0 50 = [c1GainB] ∧
    c1GainA.washloss = 0 ∧ (gainLot c1St c1GainA).dtclose = some 40 ∧
    ((0:ℤ) ≤ 40 ∧ (40:ℤ) ≤ 50) ∧
    c1GainA ∉ doWashSalesSelect c1St 0 50 ∧
    (gainLot c1St c1GainB).dtclose = some 60 ∧ ¬((60:ℤ) ≤ 50) := by
  norm_num [doWashSalesSelect, c1St, c1GainA, c1GainB, c1LotA, c1LotB, gainLot,
    sortKey, insertKey, List.filter, List.find?]

/-- C2 (counterexample): a loss gain on a closed fractional-unit lot
(0.2 units) with a same-sign replacement lot of 0.1 units, selected by
the wash-sale pass (`washloss = 0`, `value < 0`, closer matches), makes
`doWashSale` abort: the binary-float round trip in `signAgnosticMin`
perturbs the effective unit count to 0.1 + 2⁻⁵⁵·(1/5), so the running
counter of the replacement-rolling loop does not return to zero and the
final `assert replacementUnits == 0` fails. -/
theorem doWashSale_assert_counterexample :
    doWashSale [ce2Sell, ce2Buy] ce2St ce2Gain = none ∧
    ce2Gain.washloss = 0 ∧ ce2Lot.dtclose = some 40 ∧
    gainValue ce2St ce2Gain < 0 ∧ ce2Lot.closer = ce2Gain.tranId ∧
    washReplUnits ce2St ce2Lot 40 = 1/10 := by

  have ha : |(1:ℚ)/10| = 1/10 := abs_of_pos (by norm_num)
  have hd : |(3602879701896397:ℚ)/36028797018963968| = 3602879701896397/36028797018963968 :=
    abs_of_pos (by norm_num)
  refine ⟨?_, by norm_num [ce2Gain], by norm_num [ce2Lot], ?_, by norm_num [ce2Lot, ce2Gain], ?_⟩
  · norm_num [doWashSale, ce2St, ce2Gain, ce2Lot, ce2Repl, ce2Sell, ce2Buy,
      washReplacements, washReplPred, sortKey, insertKey, List.filter, List.find?,
      signAgnosticMin_tenth_fifth, ha, hd, setLot, setGain, getTx,
      splitGains, rollLoop, List.sum]
  · norm_num [gainValue, gainLot, ce2St, ce2Gain, ce2Lot, ce2Repl, List.find?]
  · norm_num [washReplUnits, washReplacements, washReplPred, ce2St, ce2Lot, ce2Repl,
      sortKey, insertKey, List.filter]

theorem tradeWalk_zero (tx : Invtran) (lots : List Lot) (nl ng : ℕ) :
    tradeWalk tx lots 0 nl ng = ⟨[], [], [], 0, nl, ng⟩ := by
  cases lots <;> simp [tradeWalk]

theorem applyLots_nil (lots : List Lot) : applyLots lots [] = lots := by
  simp [applyLots]

/-- C10: a not-yet-logged trade with zero units changes no lot, creates
no lot and no gain, and advances no id counter; its only effect is the
new event-log entry. -/
theorem trade_zero_units_frame (st : Ledger) (tx : Invtran)
    (hlog : tx.id ∉ st.log) (hu : tx.units = 0) :
    trade st tx = { st with log := st.log ++ [tx.id] } := by
  simp [trade, if_neg hlog, hu, tradeWalk_zero, applyLots_nil]

/-- Witness for `trade_zero_units_frame`: the zero-unit trade on the
empty ledger only logs transaction 7. -/
theorem trade_zero_units_frame_witness :
    trade emptyLedger zeroTx = { emptyLedger with log := [7] } := by
  have h := trade_zero_units_frame emptyLedger zeroTx (by simp [emptyLedger]) rfl
  simpa [emptyLedger] using h

theorem trade_logged {st : Ledger} {tx : Invtran} (h : tx.id ∈ st.log) :
    trade st tx = st := by
  rw [trade, if_pos h]

theorem returnOfCapital_logged {st : Ledger} {tx : Invtran} (h : tx.id ∈ st.log) :
    returnOfCapital st tx true = some st := by
  rw [returnOfCapital]
  simp [h]

theorem split_logged {st : Ledger} {tx : Invtran} (h : tx.id ∈ st.log) :
    split st tx = some st := by
  rw [split, if_pos h]

theorem trade_log (st : Ledger) (tx : Invtran) :
    (trade st tx).log = st.log ∨ (trade st tx).log = st.log ++ [tx.id] := by
  by_cases h : tx.id ∈ st.log
  · rw [trade_logged h]
    exact Or.inl rfl
  · right
    rw [trade, if_neg h]
    dsimp only
    split <;> rfl

theorem returnOfCapital_log {st st1 : Ledger} {tx : Invtran}
    (h : returnOfCapital st tx true = some st1) :
    st1.log = st.log ∨ st1.log = st.log ++ [tx.id] := by
  by_cases hmem : tx.id ∈ st.log
  · rw [returnOfCapital_logged hmem] at h
    cases h
    exact Or.inl rfl
  · right
    rw [returnOfCapital] at h
    simp only [if_neg hmem, decide_eq_true_eq] at h
    rw [if_neg (by simp [hmem])] at h
    split at h
    · exact absurd h (by simp)
    · cases h
      rfl

theorem split_log {st st1 : Ledger} {tx : Invtran}
    (h : split st tx = some st1) :
    st1.log = st.log ∨ st1.log = st.log ++ [tx.id] := by
  by_cases hmem : tx.id ∈ st.log
  · rw [split_logged hmem] at h
    cases h
    exact Or.inl rfl
  · right
    rw [split, if_neg hmem] at h
    dsimp only at h
    split at h
    · exact absurd h (by simp)
    · split at h
      · cases h
        rfl
      · exact absurd h (by simp)

theorem doInvtran_log {st st1 : Ledger} {tx : Invtran}
    (h : doInvtran st tx = some st1) :
    st1.log = st.log ∨ st1.log = st.log ++ [tx.id] := by
  rw [doInvtran] at h
  cases hk : tx.kind <;> rw [hk] at h
  · cases h
    exact trade_log st tx
  · exact returnOfCapital_log h
  · exact split_log h
  · cases h
    exact Or.inl rfl

theorem doInvtran_log_mono {st st1 : Ledger} {tx : Invtran}
    (h : doInvtran st tx = some st1) : ∀ i ∈ st.log, i ∈ st1.log := by
  intro i hi
  rcases doInvtran_log h with h1 | h1 <;> rw [h1]
  · exact hi
  · exact List.mem_append_left _ hi

theorem doInvtrans_log_mono {txs : List Invtran} :
    ∀ {st st1 : Ledger}, doInvtrans st txs = some st1 → ∀ i ∈ st.log, i ∈ st1.log := by
  induction txs with
  | nil =>
    intro st st1 h
    rw [doInvtrans] at h
    cases h
    exact fun i hi => hi
  | cons tx rest ih =>
    intro st st1 h
    rw [doInvtrans] at h
    cases hm : doInvtran st tx with
    | none => rw [hm] at h; exact absurd h (by simp)
    | some stm =>
      rw [hm] at h
      exact fun i hi => ih h i (doInvtran_log_mono hm i hi)

theorem doInvtran_idem_ready {st st1 : Ledger} {tx : Invtran}
    (h : doInvtran st tx = some st1) : tx.kind = .other ∨ tx.id ∈ st1.log := by
  cases hk : tx.kind
  case other => exact Or.inl rfl
  all_goals right
  all_goals rw [doInvtran, hk] at h
  · cases h
    by_cases hmem : tx.id ∈ st.log
    · rw [trade_logged hmem]
      exact hmem
    · rw [trade, if_neg hmem]
      have hm2 : ∀ s2 : Ledger, s2.log = st.log ++ [tx.id] → tx.id ∈ s2.log := by
        intro s2 hs
        rw [hs]
        exact List.mem_append_right _ (List.mem_singleton.mpr rfl)
      dsimp only
      split <;> exact hm2 _ rfl
  · rcases returnOfCapital_log h with h1 | h1 <;> rw [h1]
    · by_cases hmem : tx.id ∈ st.log
      · exact hmem
      · exfalso
        rw [returnOfCapital] at h
        simp only [if_neg hmem, decide_eq_true_eq] at h
        rw [if_neg (by simp [hmem])] at h
        split at h
        · exact absurd h (by simp)
        · cases h
          simp at h1
    · exact List.mem_append_right _ (List.mem_singleton.mpr rfl)
  · rcases split_log h with h1 | h1 <;> rw [h1]
    · by_cases hmem : tx.id ∈ st.log
      · exact hmem
      · exfalso
        rw [split, if_neg hmem] at h
        dsimp only at h
        split at h
        · exact absurd h (by simp)
        · split at h
          · cases h
            simp at h1
          · exact absurd h (by simp)
    · exact List.mem_append_right _ (List.mem_singleton.mpr rfl)

theorem doInvtran_of_logged (st : Ledger) (tx : Invtran) (h : tx.id ∈ st.log) :
    doInvtran st tx = some st := by
  rw [doInvtran]
  cases tx.kind
  · rw [trade_logged h]
  · exact returnOfCapital_logged h
  · exact split_logged h
  · rfl

/-- C9: dispatching a trade, return-of-capital or split transaction whose
identity is already in the event log returns the ledger unchanged, and
re-running a whole transaction stream that already ran to completion is a
no-op. -/
theorem reprocessing_is_noop :
    (∀ (st : Ledger) (tx : Invtran), tx.id ∈ st.log → doInvtran st tx = some st) ∧
    (∀ (txs : List Invtran) (st st1 : Ledger),
       doInvtrans st txs = some st1 → doInvtrans st1 txs = some st1) := by
  refine ⟨doInvtran_of_logged, ?_⟩
  intro txs
  induction txs with
  | nil =>
    intro st st1 h
    rw [doInvtrans] at h
    cases h
    rfl
  | cons tx rest ih =>
    intro st st1 h
    rw [doInvtrans] at h
    cases hm : doInvtran st tx with
    | none => rw [hm] at h; exact absurd h (by simp)
    | some stm =>
      rw [hm] at h
      have hstep : doInvtran st1 tx = some st1 := by
        rcases doInvtran_idem_ready hm with hk | hmem
        · rw [doInvtran, hk]
        · exact doInvtran_of_logged st1 tx (doInvtrans_log_mono h tx.id hmem)
      rw [doInvtrans, hstep]
      exact ih stm st1 h

/-- Witness for `reprocessing_is_noop`: replaying an already-logged
trade, and replaying a one-transaction stream, are no-ops. -/
theorem reprocessing_is_noop_witness :
    doInvtran ⟨[], [], [7], 1, 1⟩ zeroTx = some ⟨[], [], [7], 1, 1⟩ :=
  reprocessing_is_noop.1 ⟨[], [], [7], 1, 1⟩ zeroTx (by simp [zeroTx])

theorem forall2_mem_left {α β : Type} {R : α → β → Prop} :
    ∀ {as : List α} {bs : List β}, List.Forall₂ R as bs →
      ∀ a ∈ as, ∃ b ∈ bs, R a b := by
  intro as bs h
  induction h with
  | nil => intro a ha; cases ha
  | @cons x y xs ys hR _ ih =>
    intro a ha
    rcases List.mem_cons.mp ha with rfl | ha
    · exact ⟨y, List.mem_cons_self y ys, hR⟩
    · rcases ih a ha with ⟨b, hb, hRb⟩
      exact ⟨b, List.mem_cons_of_mem y hb, hRb⟩

theorem rocBuild_spec (tx : Invtran) (u : ℚ) :
    ∀ (sel : List Lot) (nl ng : ℕ),
      List.Forall₂ (fun (s : Lot) (l : Lot) =>
          s.units = l.units ∧ s.washcost = l.washcost ∧ s.dtopen = l.dtopen ∧
          s.opener = l.opener ∧ s.predecessor = some l.id ∧
          s.dtstart = tx.dttrade ∧ s.starter = some tx.id ∧
          s.cost = (if l.cost - l.units * u < 0 then 0 else l.cost - l.units * u))
        (rocBuild tx u sel nl ng).created sel ∧
      List.Forall₂ (fun (gn : Gain) (l : Lot) =>
          gn.proceeds = -(l.cost - l.units * u) ∧ gn.washloss = 0 ∧
          gn.tranId = some tx.id ∧
          ∃ s ∈ (rocBuild tx u sel nl ng).created,
            s.id = gn.lotId ∧ s.predecessor = some l.id ∧ s.cost = 0)
        (rocBuild tx u sel nl ng).gains
        (sel.filter (fun l => decide (l.cost - l.units * u < 0))) := by
  intro sel
  induction sel with
  | nil =>
    intro nl ng
    constructor <;> simp [rocBuild]
  | cons lot rest ih =>
    intro nl ng
    by_cases hneg : lot.cost - lot.units * u < 0
    · rw [rocBuild]
      dsimp only
      rw [if_pos hneg]
      constructor
      · exact List.Forall₂.cons
          (by exact ⟨rfl, rfl, rfl, rfl, rfl, rfl, rfl, by rw [if_pos hneg]⟩)
          (ih (nl + 1) (ng + 1)).1
      · rw [List.filter_cons, if_pos (by simpa using hneg)]
        refine List.Forall₂.cons ⟨rfl, rfl, rfl, ?_⟩ ?_
        · exact ⟨_, List.mem_cons_self _ _, rfl, rfl, rfl⟩
        · refine ((ih (nl + 1) (ng + 1)).2).imp ?_
          intro gn l hgl
          exact ⟨hgl.1, hgl.2.1, hgl.2.2.1, by
            rcases hgl.2.2.2 with ⟨s, hs, h1, h2, h3⟩
            exact ⟨s, List.mem_cons_of_mem _ hs, h1, h2, h3⟩⟩
    · rw [rocBuild]
      dsimp only
      rw [if_neg hneg]
      constructor
      · exact List.Forall₂.cons
          (by exact ⟨rfl, rfl, rfl, rfl, rfl, rfl, rfl, by rw [if_neg hneg]⟩)
          (ih (nl + 1) ng).1
      · rw [List.filter_cons, if_neg (by simpa using hneg)]
        refine ((ih (nl + 1) ng).2).imp ?_
        intro gn l hgl
        exact ⟨hgl.1, hgl.2.1, hgl.2.2.1, by
          rcases hgl.2.2.2 with ⟨s, hs, h1, h2, h3⟩
          exact ⟨s, List.mem_cons_of_mem _ hs, h1, h2, h3⟩⟩

theorem roc_characterization (st : Ledger) (tx : Invtran) (hlog : tx.id ∉ st.log) :
    (returnOfCapital st tx true = none ↔ rocTotalUnits st tx = 0) ∧
    (∀ st1, returnOfCapital st tx true = some st1 →
       st1.log = st.log ++ [tx.id] ∧
       st1.lots.take st.lots.length =
         st.lots.map (fun l =>
           if longsAsOfPred tx.dttrade none (some tx.secinfo) l then
             { l with ender := some tx.id, dtend := some tx.dttrade }
           else l) ∧
       List.Forall₂ (fun (s : Lot) (l : Lot) =>
           s.units = l.units ∧ s.washcost = l.washcost ∧ s.dtopen = l.dtopen ∧
           s.opener = l.opener ∧ s.predecessor = some l.id ∧
           s.dtstart = tx.dttrade ∧ s.starter = some tx.id ∧
           s.cost = (if rocAdjCost st tx l < 0 then 0 else rocAdjCost st tx l))
         (st1.lots.drop st.lots.length) (rocSelection st tx) ∧
       st1.gains.take st.gains.length = st.gains ∧
       List.Forall₂ (fun (gn : Gain) (l : Lot) =>
           gn.proceeds = -(rocAdjCost st tx l) ∧ gn.washloss = 0 ∧
           gn.tranId = some tx.id ∧
           ∃ s ∈ st1.lots, s.id = gn.lotId ∧ s.predecessor = some l.id ∧ s.cost = 0)
         (st1.gains.drop st.gains.length)
         ((rocSelection st tx).filter (fun l => decide (rocAdjCost st tx l < 0)))) := by
  simp only [rocAdjCost, rocTotalUnits, rocSelection]
  rw [returnOfCapital]
  simp only [if_neg hlog]
  rw [if_neg (by simp [hlog])]
  constructor
  · by_cases hT :
      ((longsAsOf st.lots tx.dttrade none (some tx.secinfo)).map (fun l => l.units)).sum = 0
    · rw [if_pos hT]
      simpa using hT
    · rw [if_neg hT]
      simpa using hT
  · intro st1 hst1
    by_cases hT :
      ((longsAsOf st.lots tx.dttrade none (some tx.secinfo)).map (fun l => l.units)).sum = 0
    · rw [if_pos hT] at hst1
      exact absurd hst1 (by simp)
    · rw [if_neg hT] at hst1
      rw [Option.some_inj] at hst1
      subst hst1
      have hbuild := rocBuild_spec tx
        (tx.total / ((longsAsOf st.lots tx.dttrade none (some tx.secinfo)).map
          (fun l => l.units)).sum)
        (longsAsOf st.lots tx.dttrade none (some tx.secinfo))
        st.nextLotId st.nextGainId
      refine ⟨rfl, ?_, ?_, ?_, ?_⟩
      · exact List.take_left' (by simp)
      · rw [List.drop_left' (by simp)]
        exact hbuild.1
      · exact List.take_left' rfl
      · rw [List.drop_left' rfl]
        refine hbuild.2.imp ?_
        intro gn l hgl
        refine ⟨hgl.1, hgl.2.1, hgl.2.2.1, ?_⟩
        rcases hgl.2.2.2 with ⟨s, hs, h1, h2, h3⟩
        exact ⟨s, List.mem_append_right _ hs, h1, h2, h3⟩

/-- C6: a not-yet-logged return-of-capital event fails exactly when the
open long lots of its security hold no units in total; otherwise it ends
each such lot and appends a successor per lot with the same units,
washcost, dtopen and opener, cost `lot.cost - lot.units * (total / totalUnits)`
clamped at zero, and — exactly for the lots whose adjusted cost would be
negative — a gain on the successor whose proceeds are the excess. -/
theorem returnOfCapital_spec (st : Ledger) (tx : Invtran) (hlog : tx.id ∉ st.log) :
    (returnOfCapital st tx true = none ↔ rocTotalUnits st tx = 0) ∧
    (∀ st1, returnOfCapital st tx true = some st1 →
       st1.log = st.log ++ [tx.id] ∧
       st1.lots.take st.lots.length =
         st.lots.map (fun l =>
           if longsAsOfPred tx.dttrade none (some tx.secinfo) l then
             { l with ender := some tx.id, dtend := some tx.dttrade }
           else l) ∧
       List.Forall₂ (fun (s : Lot) (l : Lot) =>
           s.units = l.units ∧ s.washcost = l.washcost ∧ s.dtopen = l.dtopen ∧
           s.opener = l.opener ∧ s.predecessor = some l.id ∧
           s.dtstart = tx.dttrade ∧ s.starter = some tx.id ∧
           s.cost = (if rocAdjCost st tx l < 0 then 0 else rocAdjCost st tx l))
         (st1.lots.drop st.lots.length) (rocSelection st tx) ∧
       st1.gains.take st.gains.length = st.gains ∧
       List.Forall₂ (fun (gn : Gain) (l : Lot) =>
           gn.proceeds = -(rocAdjCost st tx l) ∧ gn.washloss = 0 ∧
           gn.tranId = some tx.id ∧
           ∃ s ∈ st1.lots, s.id = gn.lotId ∧ s.predecessor = some l.id ∧ s.cost = 0)
         (st1.gains.drop st.gains.length)
         ((rocSelection st tx).filter (fun l => decide (rocAdjCost st tx l < 0)))) :=
  roc_characterization st tx hlog

/-- Witness for `returnOfCapital_spec` at the concrete over-distributing
return of capital `rocTx` on the one-lot ledger `rocSt`. -/
theorem returnOfCapital_spec_witness :
    (returnOfCapital rocSt rocTx true = none ↔ rocTotalUnits rocSt rocTx = 0) ∧
    List.Forall₂ (fun (gn : Gain) (l : Lot) =>
        gn.proceeds = -(rocAdjCost rocSt rocTx l) ∧ gn.washloss = 0 ∧
        gn.tranId = some rocTx.id ∧
        ∃ s ∈ rocResult.lots, s.id = gn.lotId ∧ s.predecessor = some l.id ∧ s.cost = 0)
      (rocResult.gains.drop rocSt.gains.length)
      ((rocSelection rocSt rocTx).filter
        (fun l => decide (rocAdjCost rocSt rocTx l < 0))) := by
  have heval : returnOfCapital rocSt rocTx true = some rocResult := by
    norm_num [returnOfCapital, rocSt, rocTx, rocLot, rocResult, longsAsOf, asOf,
      asOfPred, longsAsOfPred, sortKey, insertKey, rocBuild, List.filter, List.sum]
  have h := returnOfCapital_spec rocSt rocTx (by simp [rocSt])
  exact ⟨h.1, (h.2 rocResult heval).2.2.2.2⟩

theorem splitBuild_spec (tx : Invtran) (r : ℚ) :
    ∀ (sel : List Lot) (nl : ℕ),
      List.Forall₂ (fun (s : Lot) (l : Lot) =>
          s.units = l.units * r ∧ s.cost = l.cost ∧ s.washcost = l.washcost ∧
          s.dtopen = l.dtopen ∧ s.opener = l.opener ∧ s.predecessor = some l.id ∧
          s.dtstart = tx.dttrade ∧ s.starter = some tx.id)
        (splitBuild tx r sel nl).created sel ∧
      (splitBuild tx r sel nl).newUnits = (sel.map (fun l => l.units * r)).sum := by
  intro sel
  induction sel with
  | nil =>
    intro nl
    constructor <;> simp [splitBuild]
  | cons lot rest ih =>
    intro nl
    rw [splitBuild]
    dsimp only
    constructor
    · exact List.Forall₂.cons ⟨rfl, rfl, rfl, rfl, rfl, rfl, rfl, rfl⟩ (ih (nl + 1)).1
    · rw [(ih (nl + 1)).2]
      simp

theorem split_characterization (st : Ledger) (tx : Invtran) (hlog : tx.id ∉ st.log) :
    (split st tx = none ↔
       (splitRatio tx ≠ tx.numerator / tx.denominator ∨
        1/100000000 ≤
          |((splitSelection st tx).map (fun l => l.units * splitRatio tx)).sum -
            tx.newunits|)) ∧
    (∀ st1, split st tx = some st1 →
       st1.log = st.log ++ [tx.id] ∧ st1.gains = st.gains ∧
       st1.lots.take st.lots.length =
         st.lots.map (fun l =>
           if asOfPred tx.dttrade none (some tx.secinfo) l then
             { l with ender := some tx.id, dtend := some tx.dttrade }
           else l) ∧
       List.Forall₂ (fun (s : Lot) (l : Lot) =>
           s.units = l.units * splitRatio tx ∧ s.cost = l.cost ∧
           s.washcost = l.washcost ∧ s.dtopen = l.dtopen ∧ s.opener = l.opener ∧
           s.predecessor = some l.id ∧ s.dtstart = tx.dttrade ∧
           s.starter = some tx.id)
         (st1.lots.drop st.lots.length) (splitSelection st tx)) := by
  simp only [splitRatio, splitSelection]
  rw [split, if_neg hlog]
  dsimp only
  have hbuild := splitBuild_spec tx (tx.newunits / tx.oldunits)
    (asOf st.lots tx.dttrade none (some tx.secinfo)) st.nextLotId
  by_cases hr : tx.newunits / tx.oldunits ≠ tx.numerator / tx.denominator
  · rw [if_pos hr]
    refine ⟨⟨fun _ => Or.inl hr, fun _ => rfl⟩, ?_⟩
    intro st1 hst1
    exact absurd hst1 (by simp)
  · rw [if_neg hr]
    push_neg at hr
    by_cases htol :
      |(splitBuild tx (tx.newunits / tx.oldunits)
          (asOf st.lots tx.dttrade none (some tx.secinfo)) st.nextLotId).newUnits -
        tx.newunits| < 1/100000000
    · rw [if_pos htol]
      constructor
      · simp only [hbuild.2] at htol
        constructor
        · intro h
          exact absurd h (by simp)
        · intro h
          rcases h with h | h
          · exact absurd hr h
          · exact absurd htol (not_lt.mpr h)
      · intro st1 hst1
        rw [Option.some_inj] at hst1
        subst hst1
        refine ⟨rfl, rfl, List.take_left' (by simp), ?_⟩
        rw [List.drop_left' (by simp)]
        exact hbuild.1
    · rw [if_neg htol]
      simp only [hbuild.2] at htol
      refine ⟨⟨fun _ => Or.inr (not_lt.mp htol), fun _ => rfl⟩, ?_⟩
      intro st1 hst1
      exact absurd hst1 (by simp)

/-- C7: a not-yet-logged split fails exactly when `newunits/oldunits`
disagrees with `numerator/denominator` or the successors' units (each
`lot.units * newunits/oldunits`) sum to a value at least `1e-8` away
from `newunits`; otherwise it ends every current lot of the security and
appends per-lot successors with scaled units and the predecessor's
cost.  The nonzero-divisor hypotheses keep the rational embedding on the
domain where Python division is defined. -/
theorem split_spec (st : Ledger) (tx : Invtran) (hlog : tx.id ∉ st.log)
    (hold : tx.oldunits ≠ 0) (hden : tx.denominator ≠ 0) :
    (split st tx = none ↔
       (splitRatio tx ≠ tx.numerator / tx.denominator ∨
        1/100000000 ≤
          |((splitSelection st tx).map (fun l => l.units * splitRatio tx)).sum -
            tx.newunits|)) ∧
    (∀ st1, split st tx = some st1 →
       st1.log = st.log ++ [tx.id] ∧ st1.gains = st.gains ∧
       st1.lots.take st.lots.length =
         st.lots.map (fun l =>
           if asOfPred tx.dttrade none (some tx.secinfo) l then
             { l with ender := some tx.id, dtend := some tx.dttrade }
           else l) ∧
       List.Forall₂ (fun (s : Lot) (l : Lot) =>
           s.units = l.units * splitRatio tx ∧ s.cost = l.cost ∧
           s.washcost = l.washcost ∧ s.dtopen = l.dtopen ∧ s.opener = l.opener ∧
           s.predecessor = some l.id ∧ s.dtstart = tx.dttrade ∧
           s.starter = some tx.id)
         (st1.lots.drop st.lots.length) (splitSelection st tx)) :=
  split_characterization st tx hlog

/-- Witness for `split_spec` at the concrete 2-for-1 split `splitTx` on
the one-lot ledger `rocSt`. -/
theorem split_spec_witness :
    (split rocSt splitTx = none ↔
       (splitRatio splitTx ≠ splitTx.numerator / splitTx.denominator ∨
        1/100000000 ≤
          |((splitSelection rocSt splitTx).map
              (fun l => l.units * splitRatio splitTx)).sum - splitTx.newunits|)) ∧
    List.Forall₂ (fun (s : Lot) (l : Lot) =>
        s.units = l.units * splitRatio splitTx ∧ s.cost = l.cost ∧
        s.washcost = l.washcost ∧ s.dtopen = l.dtopen ∧ s.opener = l.opener ∧
        s.predecessor = some l.id ∧ s.dtstart = splitTx.dttrade ∧
        s.starter = some splitTx.id)
      (splitResult.lots.drop rocSt.lots.length) (splitSelection rocSt splitTx) := by
  have heval : split rocSt splitTx = some splitResult := by
    norm_num [split, rocSt, splitTx, rocLot, splitResult, asOf, asOfPred,
      sortKey, insertKey, splitBuild, List.filter]
  have h := split_spec rocSt splitTx (by simp [rocSt]) (by norm_num [splitTx])
    (by norm_num [splitTx])
  exact ⟨h.1, (h.2 splitResult heval).2.2.2⟩

theorem mem_asOf {lots : List Lot} {d : ℤ} {a sec : Option ℕ} {l : Lot}
    (h : l ∈ asOf lots d a sec) : l ∈ lots := by
  rw [asOf, mem_sortKey] at h
  exact List.mem_of_mem_filter h

theorem mem_longsAsOf {lots : List Lot} {d : ℤ} {a sec : Option ℕ} {l : Lot}
    (h : l ∈ longsAsOf lots d a sec) : l ∈ lots :=
  mem_asOf (List.mem_of_mem_filter h)

/-- C8: every successor lot appended by a return of capital, a stock
split, or the transfer adjunct's successor loop carries the `dtopen` and
`opener` of a predecessor lot of the input ledger — the lot its
`predecessor` key names — so the holding period used for long-term
classification is invariant along predecessor chains. -/
theorem successor_preserves_dtopen_opener :
    (∀ (st : Ledger) (tx : Invtran) (st1 : Ledger),
       returnOfCapital st tx true = some st1 →
       ∀ s ∈ st1.lots.drop st.lots.length, ∃ l ∈ st.lots,
         s.predecessor = some l.id ∧ s.dtopen = l.dtopen ∧ s.opener = l.opener) ∧
    (∀ (st : Ledger) (tx : Invtran) (st1 : Ledger), split st tx = some st1 →
       ∀ s ∈ st1.lots.drop st.lots.length, ∃ l ∈ st.lots,
         s.predecessor = some l.id ∧ s.dtopen = l.dtopen ∧ s.opener = l.opener) ∧
    (∀ (lots : List Lot) (ratio : ℚ) (sec outId inId : ℕ) (dt : ℤ) (nl : ℕ),
       ∀ s ∈ (transferBuild lots ratio sec outId inId dt nl).2, ∃ l ∈ lots,
         s.predecessor = some l.id ∧ s.dtopen = l.dtopen ∧ s.opener = l.opener) := by
  refine ⟨?_, ?_, ?_⟩
  · intro st tx st1 h s hs
    by_cases hmem : tx.id ∈ st.log
    · rw [returnOfCapital_logged hmem] at h
      cases h
      rw [List.drop_length] at hs
      cases hs
    · have hspec := ((roc_characterization st tx hmem).2 st1 h).2.2.1
      rcases forall2_mem_left hspec s hs with ⟨l, hl, hrel⟩
      exact ⟨l, mem_longsAsOf hl, hrel.2.2.2.2.1, hrel.2.2.1, hrel.2.2.2.1⟩
  · intro st tx st1 h s hs
    by_cases hmem : tx.id ∈ st.log
    · rw [split_logged hmem] at h
      cases h
      rw [List.drop_length] at hs
      cases hs
    · have hspec := ((split_characterization st tx hmem).2 st1 h).2.2.2
      rcases forall2_mem_left hspec s hs with ⟨l, hl, hrel⟩
      exact ⟨l, mem_asOf hl, hrel.2.2.2.2.2.1, hrel.2.2.2.1, hrel.2.2.2.2.1⟩
  · intro lots ratio sec outId inId dt nl s hs
    induction lots generalizing nl with
    | nil => cases hs
    | cons lot rest ih =>
      rw [transferBuild] at hs
      rcases List.mem_cons.mp hs with rfl | hs
      · exact ⟨lot, List.mem_cons_self _ _, rfl, rfl, rfl⟩
      · rcases ih (nl + 1) hs with ⟨l, hl, hrel⟩
        exact ⟨l, List.mem_cons_of_mem _ hl, hrel⟩

/-- Witness for `successor_preserves_dtopen_opener`: the successor lot
created by the concrete return of capital `rocTx` points back to
`rocLot` and carries its `dtopen` and `opener`. -/
theorem successor_preserves_dtopen_opener_witness :
    ∃ l ∈ rocSt.lots, rocSuccessor.predecessor = some l.id ∧
      rocSuccessor.dtopen = l.dtopen ∧ rocSuccessor.opener = l.opener :=
  successor_preserves_dtopen_opener.1 rocSt rocTx rocResult
    (by norm_num [returnOfCapital, rocSt, rocTx, rocLot, rocResult, longsAsOf, asOf,
      asOfPred, longsAsOfPred, sortKey, insertKey, rocBuild, List.filter, List.sum])
    rocSuccessor (by simp [rocResult, rocSt, rocSuccessor])

/-- C1 (amended): the wash-sale pass selects exactly the gains with
`washloss = 0` whose lot exists, has been closed at some time
(`dtclose` non-null), and was *opened* strictly after `dtstart` and no
later than `dtend` — the window tests `lot.dtopen`, not the close date —
and it processes them in ascending `lot.dtopen` order. -/
theorem doWashSalesSelect_spec (st : Ledger) (a b : ℤ) :
    (∀ g, g ∈ doWashSalesSelect st a b ↔
       (g ∈ st.gains ∧ g.washloss = 0 ∧
        ∃ l, st.lots.find? (fun l2 => l2.id = g.lotId) = some l ∧
          l.dtclose ≠ none ∧ a < l.dtopen ∧ l.dtopen ≤ b)) ∧
    (doWashSalesSelect st a b).Pairwise (fun g1 g2 =>
       (gainLot st g1).dtopen ≤ (gainLot st g2).dtopen) := by
  constructor
  · intro g
    rw [doWashSalesSelect, mem_sortKey, List.mem_filter]
    constructor
    · rintro ⟨hmem, hp⟩
      rw [Bool.and_eq_true, decide_eq_true_eq] at hp
      rcases hp with ⟨hw, hp⟩
      cases hfind : st.lots.find? (fun l2 => l2.id = g.lotId) with
      | none => rw [hfind] at hp; cases hp
      | some l =>
        rw [hfind] at hp
        simp only [Bool.and_eq_true, decide_eq_true_eq] at hp
        exact ⟨hmem, hw, l, rfl, hp.1.1, hp.1.2, hp.2⟩
    · rintro ⟨hmem, hw, l, hfind, h1, h2, h3⟩
      refine ⟨hmem, ?_⟩
      rw [Bool.and_eq_true, decide_eq_true_eq, hfind]
      simp only [Bool.and_eq_true, decide_eq_true_eq]
      exact ⟨hw, ⟨h1, h2⟩, h3⟩
  · simp only [doWashSalesSelect, gainLot]
    exact sortKey_pairwise _ _

theorem abs_listSum_le : ∀ l : List ℚ, |l.sum| ≤ (l.map (fun x => |x|)).sum := by
  intro l
  induction l with
  | nil => simp
  | cons x xs ih =>
    simp only [List.sum_cons, List.map_cons]
    exact le_trans (abs_add x xs.sum) (by linarith)

theorem sum_map_mul_right (l : List Lot) (f : Lot → ℚ) (c : ℚ) :
    (l.map (fun x => f x * c)).sum = (l.map f).sum * c := by
  induction l with
  | nil => simp
  | cons x xs ih =>
    simp only [List.map_cons, List.sum_cons, ih]
    ring

theorem filter_setLot (lots : List Lot) (m : Lot) (P : Lot → Bool)
    (hP : ∀ x : Lot, x.id = m.id → P x = false) :
    (setLot lots m).filter P = lots.filter P := by
  induction lots with
  | nil => rfl
  | cons x xs ih =>
    rw [setLot] at ih ⊢
    simp only [List.map_cons]
    by_cases hx : x.id = m.id
    · rw [if_pos hx, List.filter_cons, List.filter_cons, hP m rfl, hP x hx]
      exact ih
    · rw [if_neg hx, List.filter_cons, List.filter_cons]
      cases hPx : P x
      · exact ih
      · rw [ih]

theorem sortKey_map_sum {κ : Type} [LinearOrder κ] (key : Lot → κ) (f : Lot → ℚ)
    (l : List Lot) : ((sortKey key l).map f).sum = (l.map f).sum :=
  ((sortKey_perm key l).map f).sum_eq

theorem washReplPred_units_pos {acct sec lossId : ℕ} {u0 : ℚ} {dc : ℤ} {l : Lot}
    (h : washReplPred acct sec lossId u0 dc l = true) : 0 < l.units * u0 := by
  rw [washReplPred] at h
  simp only [Bool.and_eq_true, decide_eq_true_eq] at h
  tauto

theorem washReplPred_id_ne {acct sec lossId : ℕ} {u0 : ℚ} {dc : ℤ} {l : Lot}
    (h : l.id = lossId) : washReplPred acct sec lossId u0 dc l = false := by
  rw [washReplPred]
  simp [h]

theorem mem_washReplacements_pred {lots : List Lot} {acct sec lossId : ℕ} {u0 : ℚ}
    {dc : ℤ} {l : Lot} (h : l ∈ washReplacements lots acct sec lossId u0 dc) :
    washReplPred acct sec lossId u0 dc l = true := by
  rw [washReplacements, mem_sortKey] at h
  exact List.of_mem_filter h

theorem splitGains_some (txs : List Invtran) (lotId : ℕ) (wu uwU : ℚ) (uwId : ℕ)
    (sc : Option (ℕ × ℚ)) :
    ∀ (gains : List Gain) (ng : ℕ),
      (∀ gn ∈ gains, gn.lotId = lotId →
        ∀ sid wp, sc = some (sid, wp) → gn.id = sid →
          |wu / (-(getTx txs gn.tranId).units) * (getTx txs gn.tranId).total - wp| <
            1/100000000) →
      ∃ r, splitGains txs lotId wu uwU uwId sc gains ng = some r := by
  intro gains
  induction gains with
  | nil =>
    intro ng _
    exact ⟨_, rfl⟩
  | cons gn rest ih =>
    intro ng h
    rw [splitGains]
    by_cases hl : gn.lotId = lotId
    · rw [if_pos hl]
      dsimp only
      cases sc with
      | none =>
        rw [if_pos rfl]
        rcases ih (ng + 1) (fun g hg => h g (List.mem_cons_of_mem _ hg)) with ⟨r, hr⟩
        rw [hr]
        exact ⟨_, rfl⟩
      | some p =>
        obtain ⟨sid, wp⟩ := p
        dsimp only
        by_cases hid : gn.id = sid
        · rw [if_pos hid,
            decide_eq_true (h gn (List.mem_cons_self _ _) hl sid wp rfl hid),
            if_pos rfl]
          rcases ih (ng + 1) (fun g hg => h g (List.mem_cons_of_mem _ hg)) with ⟨r, hr⟩
          rw [hr]
          exact ⟨_, rfl⟩
        · rw [if_neg hid, if_pos rfl]
          rcases ih (ng + 1) (fun g hg => h g (List.mem_cons_of_mem _ hg)) with ⟨r, hr⟩
          rw [hr]
          exact ⟨_, rfl⟩
    · rw [if_neg hl]
      rcases ih ng (fun g hg => h g (List.mem_cons_of_mem _ hg)) with ⟨r, hr⟩
      rw [hr]
      exact ⟨_, rfl⟩

theorem rollLoop_zero (txs : List Invtran) (uL : ℚ) (rest : List Lot) (acc : RollAcc) :
    rollLoop txs uL rest 0 0 acc = some acc := by
  cases rest <;> rw [rollLoop] <;> simp

theorem rollLoop_some (txs : List Invtran) (uL u0 : ℚ) :
    ∀ (rl : List Lot) (counter : ℚ) (acc : RollAcc),
      (∀ l ∈ rl, 0 < l.units * u0) →
      0 ≤ counter * u0 →
      |counter| ≤ ((rl.map (fun l => |l.units|)).sum) →
      ∃ acc1, rollLoop txs uL rl counter (counter * uL) acc = some acc1 := by
  intro rl
  induction rl with
  | nil =>
    intro counter acc _ _ hcap
    have hc0 : counter = 0 := by
      have h1 : |counter| ≤ 0 := by simpa using hcap
      exact abs_eq_zero.mp (le_antisymm h1 (abs_nonneg _))
    rw [rollLoop, if_pos hc0, hc0, zero_mul, if_pos rfl]
    exact ⟨acc, rfl⟩
  | cons lot rest ih =>
    intro counter acc hsgn hcsgn hcap
    have hu0 : u0 ≠ 0 := by
      intro h0
      have := hsgn lot (List.mem_cons_self _ _)
      rw [h0, mul_zero] at this
      exact lt_irrefl 0 this
    rw [rollLoop]
    by_cases hc0 : counter = 0
    · rw [if_pos hc0, hc0, zero_mul, if_pos rfl]
      exact ⟨acc, rfl⟩
    · rw [if_neg hc0]
      have hlotpos : 0 < lot.units * u0 := hsgn lot (List.mem_cons_self _ _)
      have hcpos : 0 < counter * u0 := by
        rcases lt_or_eq_of_le hcsgn with h | h
        · exact h
        · exact absurd (mul_eq_zero.mp h.symm)
            (by rintro (h1 | h1) <;> [exact hc0 h1; exact hu0 h1])
      by_cases hcase : |lot.units| ≤ |counter|
      · rw [if_pos hcase]
        dsimp only
        have habs_prod : lot.units * u0 ≤ counter * u0 := by
          have h1 : |lot.units * u0| ≤ |counter * u0| := by
            rw [abs_mul, abs_mul]
            exact mul_le_mul_of_nonneg_right hcase (abs_nonneg u0)
          calc lot.units * u0 = |lot.units * u0| := (abs_of_pos hlotpos).symm
            _ ≤ |counter * u0| := h1
            _ = counter * u0 := abs_of_pos hcpos
        have hsub_sgn : 0 ≤ (counter - lot.units) * u0 := by
          rw [sub_mul]
          linarith
        have habs_sub : |counter - lot.units| = |counter| - |lot.units| := by
          have h1 : |counter - lot.units| * |u0| = (|counter| - |lot.units|) * |u0| := by
            rw [← abs_mul, sub_mul]
            rw [abs_of_nonneg (by rw [← sub_mul]; exact hsub_sgn)]
            rw [sub_mul, ← abs_of_pos hcpos, ← abs_of_pos hlotpos, abs_mul, abs_mul]
          exact mul_right_cancel₀ (abs_ne_zero.mpr hu0) h1
        have hdl : counter * uL + lot.units * -uL = (counter - lot.units) * uL := by
          ring
        rw [hdl]
        apply ih (counter - lot.units) _ (fun l hl => hsgn l (List.mem_cons_of_mem _ hl))
          hsub_sgn
        rw [habs_sub]
        have hcap1 : |counter| ≤ |lot.units| + ((rest.map (fun l => |l.units|)).sum) := by
          simpa using hcap
        linarith
      · rw [if_neg hcase]
        dsimp only
        rcases splitGains_some txs lot.id counter (lot.units - counter) acc.nextLotId
          none acc.gains acc.nextGainId
          (fun g _ _ sid wp hsc => by cases hsc) with ⟨r, hr⟩
        rw [hr]
        obtain ⟨ms, ns, ng1⟩ := r
        dsimp only
        have h1 : counter - counter = 0 := sub_self counter
        have h2 : counter * uL + counter * -uL = 0 := by ring
        rw [h1, h2, rollLoop_zero]
        exact ⟨_, rfl⟩

end Capgains

namespace Capgains

theorem abs_units_sum_nonneg : ∀ l : List Lot, 0 ≤ (l.map (fun l => |l.units|)).sum := by
  intro l
  induction l with
  | nil => simp
  | cons x xs ih =>
    simp only [List.map_cons, List.sum_cons]
    have := abs_nonneg x.units
    linarith

theorem exists_map_some {α β : Type} (f : α → β) {X : Option α}
    (h : ∃ a, X = some a) : ∃ b, X.map f = some b := by
  rcases h with ⟨a, ha⟩
  exact ⟨f a, by rw [ha]; rfl⟩

/-- C2 (amended): for a loss gain selected by the wash-sale pass — lot
found and closed, `washloss = 0`, `value < 0`, the gain's transaction is
the lot's closer — with nonzero same-sign replacement units, *provided
the binary-float round trip of the sign-agnostic minimum is exact* (as
it is whenever the unit counts are binary-representable, in particular
for integer share counts), `doWashSale` runs to completion: the running
unit counter of the replacement-rolling loop ends at exactly zero and
the `washcost` assignments sum to the negation of the gain's `washloss`,
which is precisely what the two final assertions check, so the function
returns `some`.  The `hproc` hypothesis records that the gain's proceeds
were produced by its closing trade, as `Lot.trade` guarantees. -/
theorem doWashSale_assertions_hold (txs : List Invtran) (st : Ledger) (g : Gain)
    (lot : Lot) (dc : ℤ)
    (hlot : st.lots.find? (fun l => l.id = g.lotId) = some lot)
    (hdc : lot.dtclose = some dc)
    (hwl : g.washloss = 0)
    (hval : g.proceeds - lot.cost < 0)
    (hcl : lot.closer = g.tranId)
    (hu : lot.units ≠ 0)
    (hrepl : washReplUnits st lot dc ≠ 0)
    (hexact : floatRound (min |washReplUnits st lot dc| |lot.units|) =
      min |washReplUnits st lot dc| |lot.units|)
    (hproc : g.proceeds = lot.units / (getTx txs g.tranId).units *
      (-(getTx txs g.tranId).total)) :
    ∃ st1, doWashSale txs st g = some st1 := by
  rw [doWashSale, hlot]
  dsimp only
  rw [hdc]
  dsimp only
  rw [if_neg (by simp [hwl]), if_neg (not_le.mpr hval), if_neg (by simp [hcl])]
  have hRdef : ((washReplacements st.lots lot.account lot.security lot.id lot.units dc).map
      (fun l => l.units)).sum = washReplUnits st lot dc := rfl
  rw [hRdef, if_neg hrepl]
  set R := washReplUnits st lot dc with hRdef2
  set u0 := lot.units with hu0def
  set E := signAgnosticMin R u0 with hEdef
  set uL := (g.proceeds - lot.cost) / u0 with huLdef
  -- the partition equalities are exact, so the 1e-8 assertion on the
  -- washed gain's value holds
  have hzero : E * (g.proceeds / u0) - E * (lot.cost / u0) - E * uL = 0 := by
    rw [huLdef, sub_div]
    ring
  rw [if_neg (by rw [hzero]; norm_num)]
  -- sign and magnitude facts about the effective unit count
  have hmin_nonneg : (0:ℚ) ≤ min |R| |u0| := le_min (abs_nonneg _) (abs_nonneg _)
  have hEcases : E = if R < 0 then -(min |R| |u0|) else min |R| |u0| := by
    rw [hEdef, signAgnosticMin, pyCopysign, hexact, abs_of_nonneg hmin_nonneg]
  have hEabs : |E| = min |R| |u0| := by
    rw [hEcases]
    by_cases hRneg : R < 0
    · rw [if_pos hRneg, abs_neg, abs_of_nonneg hmin_nonneg]
    · rw [if_neg hRneg, abs_of_nonneg hmin_nonneg]
  have hRu : 0 < R * u0 := by
    have hsum : ((washReplacements st.lots lot.account lot.security lot.id u0 dc).map
        (fun l => l.units * u0)).sum = R * u0 := by
      rw [sum_map_mul_right]
      rfl
    rw [← hsum]
    apply List.sum_pos
    · intro x hx
      rcases List.mem_map.mp hx with ⟨l, hl, rfl⟩
      exact washReplPred_units_pos (mem_washReplacements_pred hl)
    · intro hnil
      apply hrepl
      have hlist : washReplacements st.lots lot.account lot.security lot.id u0 dc = [] := by
        cases hw : washReplacements st.lots lot.account lot.security lot.id u0 dc with
        | nil => rfl
        | cons a as => rw [hw, List.map_cons] at hnil; cases hnil
      rw [← hRdef, hlist]
      rfl
  have hEsign : 0 ≤ E * u0 := by
    rw [hEcases]
    by_cases hRneg : R < 0
    · rw [if_pos hRneg]
      have hu0neg : u0 < 0 := by
        by_contra hpos
        push_neg at hpos
        nlinarith
      nlinarith
    · rw [if_neg hRneg]
      have hu0pos : 0 < u0 := by
        by_contra hneg
        push_neg at hneg
        push_neg at hRneg
        rcases lt_or_eq_of_le hneg with h1 | h1
        · nlinarith
        · rw [h1] at hRu; nlinarith
      nlinarith
  -- capacity of the re-queried replacement list
  have habsR : |R| ≤ ((washReplacements st.lots lot.account lot.security lot.id u0 dc).map
      (fun l => |l.units|)).sum := by
    have h1 := abs_listSum_le ((washReplacements st.lots lot.account lot.security lot.id
      u0 dc).map (fun l => l.units))
    rw [List.map_map] at h1
    exact h1
  have hcap0 : |E| ≤ ((washReplacements st.lots lot.account lot.security lot.id u0 dc).map
      (fun l => |l.units|)).sum :=
    le_trans (hEabs ▸ min_le_left |R| |u0|) habsR
  rw [washReplacements, sortKey_map_sum] at hcap0
  -- the proceeds consistency needed by the self-check in the gain split
  have key : E / (-(getTx txs g.tranId).units) * (getTx txs g.tranId).total =
      E * (g.proceeds / u0) := by
    rcases eq_or_ne (getTx txs g.tranId).units 0 with htu | htu
    · rw [hproc, htu]
      simp
    · rw [hproc, mul_comm (u0 / (getTx txs g.tranId).units) (-(getTx txs g.tranId).total),
        mul_div_assoc, div_div, mul_comm (getTx txs g.tranId).units u0, ← div_div,
        div_self hu, one_div, div_neg, div_eq_mul_inv E]
      ring
  by_cases huw : u0 - E = 0
  · rw [if_pos huw]
    dsimp only
    apply exists_map_some
    apply rollLoop_some txs uL u0 _ E _
      (fun l hl => washReplPred_units_pos (mem_washReplacements_pred hl)) hEsign
    rw [washReplacements, sortKey_map_sum,
      filter_setLot st.lots
        ({ lot with units := E, cost := E * (lot.cost / u0), dtclose := some dc })
        (washReplPred lot.account lot.security lot.id u0 dc)
        (fun x hx => washReplPred_id_ne hx)]
    exact hcap0
  · rw [if_neg huw]
    have hchk : ∀ gn ∈ setGain st.gains
        { g with proceeds := E * (g.proceeds / u0), washloss := E * uL },
        gn.lotId = lot.id →
        ∀ sid wp, (some (g.id, E * (g.proceeds / u0)) : Option (ℕ × ℚ)) = some (sid, wp) →
        gn.id = sid →
          |E / (-(getTx txs gn.tranId).units) * (getTx txs gn.tranId).total - wp| <
            1/100000000 := by
      intro gn hgn _ sid wp hsw hid
      obtain ⟨rfl, rfl⟩ : g.id = sid ∧ E * (g.proceeds / u0) = wp := by
        cases hsw
        exact ⟨rfl, rfl⟩
      rcases List.mem_map.mp hgn with ⟨x, _, rfl⟩
      by_cases hxid :
          x.id = ({ g with proceeds := E * (g.proceeds / u0), washloss := E * uL } : Gain).id
      · rw [if_pos hxid]
        dsimp only
        rw [key, sub_self]
        norm_num
      · rw [if_neg hxid] at hid
        exact absurd hid (by simpa using hxid)
    rcases splitGains_some txs lot.id E (u0 - E) st.nextLotId
      (some (g.id, E * (g.proceeds / u0)))
      (setGain st.gains { g with proceeds := E * (g.proceeds / u0), washloss := E * uL })
      st.nextGainId hchk with ⟨r, hr⟩
    obtain ⟨ms, ns, ng1⟩ := r
    rw [hr]
    dsimp only
    apply exists_map_some
    apply rollLoop_some txs uL u0 _ E _
      (fun l hl => washReplPred_units_pos (mem_washReplacements_pred hl)) hEsign
    rw [washReplacements, sortKey_map_sum, List.filter_append,
      filter_setLot st.lots
        ({ lot with units := E, cost := E * (lot.cost / u0), dtclose := some dc })
        (washReplPred lot.account lot.security lot.id u0 dc)
        (fun x hx => washReplPred_id_ne hx),
      List.map_append, List.sum_append]
    have h2 := abs_units_sum_nonneg (List.filter
      (washReplPred lot.account lot.security lot.id u0 dc)
      [{ id := st.nextLotId, account := lot.account, security := lot.security,
         units := u0 - E, cost := (u0 - E) * (lot.cost / u0), washcost := 0,
         dtopen := lot.dtopen, dtclose := some dc, dtstart := lot.dtstart,
         dtend := lot.dtend, opener := lot.opener, closer := lot.closer,
         starter := lot.starter, ender := lot.ender, predecessor := none }])
    linarith

/-- Witness for `doWashSale_assertions_hold`: the integer-unit loss lot
`w2Lot` (two shares sold at a loss of 4) with one replacement share is
processed to completion — both final assertions pass. -/
theorem doWashSale_assertions_hold_witness :
    ∃ st1, doWashSale [w2Sell] w2St w2Gain = some st1 := by
  have hW : washReplUnits w2St w2Lot 10 = 1 := by
    norm_num [washReplUnits, washReplacements, washReplPred, w2St, w2Lot, w2Repl,
      sortKey, insertKey, List.filter]
  have hexact : floatRound (min |washReplUnits w2St w2Lot 10| |w2Lot.units|) =
      min |washReplUnits w2St w2Lot 10| |w2Lot.units| := by
    have h2 : w2Lot.units = 2 := rfl
    have hm : min |(1:ℚ)| |(2:ℚ)| = 1 := by
      rw [abs_one, abs_of_pos (by norm_num : (0:ℚ) < 2)]
      exact min_eq_left (by norm_num)
    rw [hW, h2, hm]
    exact floatRound_one
  exact doWashSale_assertions_hold [w2Sell] w2St w2Gain w2Lot 10
    (by simp [w2St, w2Lot, w2Gain, List.find?])
    rfl
    rfl
    (by norm_num [w2Gain, w2Lot])
    rfl
    (by norm_num [w2Lot])
    (by rw [hW]; norm_num)
    hexact
    (by norm_num [getTx, w2Gain, w2Lot, w2Sell, List.find?])

end Capgains
